import Mathlib

/-!
Verification of the crescendo pitch-analysis core.

This file embeds, in Lean, the numeric core of the repository:

* `dutils/analysis_utils.py` — `summarize_errors`, `gate_frames`,
  `compute_similarity` and its helpers (`align_arrays`, `_apply_offset`,
  `hz_to_midi_safe`, `cents_error`);
* `python/dutils/pitch_utils.py` — the note builders of `segment_notes`
  (its inner `flush`) and `analyze_take`, and the segmentation loop of
  `_segment_notes_by_voicing`.

Floating point numbers are idealised as elements of a linear ordered field
(`ℚ` where everything is rational so that statements are decidable, `ℝ` where
the code takes logarithms); a NaN entry of a numpy array is modelled as
`none : Option _`.  `np.round` / Python `round` use banker's rounding
(round half to even), modelled by `npRound`.
-/

namespace Crescendo

variable {α : Type} [LinearOrderedField α] [FloorRing α]

/-- Result record of `summarize_errors` (`analysis_utils.py`).  A Python
`None` field is `none`. -/
structure Summary (α : Type) where
  mean_abs_cents : Option α
  pct_within_25 : Option α
  pct_within_50 : Option α
  pct_within_100 : Option α
  valid_frames : ℕ
deriving DecidableEq

/-- The all-null summary returned when no valid frames remain. -/
def allNullSummary : Summary α :=
  { mean_abs_cents := none, pct_within_25 := none, pct_within_50 := none,
    pct_within_100 := none, valid_frames := 0 }

/-- `np.mean` of a list (sum divided by length; division by zero yields 0,
matching the guarded uses in the source where the list is never empty). -/
def npMean (xs : List α) : α := xs.sum / xs.length

/-- Whether a cents entry is an outlier: `abs_ce > max_abs`.  A NaN entry
compares false in numpy, hence is never an outlier. -/
def isOutlier (m : α) : Option α → Bool
  | some x => decide (m < |x|)
  | none => false

/-- `threshold_frames = max(1, int(ignore_short_ms / 1000.0 / frame_duration))`
(Python `int` truncates; for the positive quotients reached under the guard
this is the floor). -/
def thresholdFrames (ig fd : α) : ℕ := max 1 (Int.toNat ⌊ig / 1000 / fd⌋)

/-- Fuel-driven core of the `while i < len(outliers)` loop of
`summarize_errors`: walk the outlier flags, and for each maximal run of
consecutive outliers whose length is below `thr`, overwrite the matching
entries of `valid` with `False`.  The fuel is only there to make the
recursion structural; `invalidateShortRuns` supplies enough of it. -/
def invalidateGo (thr : ℕ) : ℕ → List Bool → List Bool → List Bool
  | _, [], v => v
  | 0, _ :: _, v => v
  | fuel + 1, false :: os, w :: vs => w :: invalidateGo thr fuel os vs
  | fuel + 1, true :: os, w :: vs =>
    let k := (os.takeWhile id).length + 1
    (if k < thr then List.replicate k false else w :: vs.take (k - 1)) ++
      invalidateGo thr fuel (os.drop (k - 1)) (vs.drop (k - 1))
  | _ + 1, _ :: _, [] => []

/-- The short-outlier-run invalidation pass of `summarize_errors`. -/
def invalidateShortRuns (thr : ℕ) (outl valid : List Bool) : List Bool :=
  invalidateGo thr outl.length outl valid

/-- The validity mask computed by `summarize_errors` before aggregation:
start from non-NaN entries, then apply outlier gating (with the short-run
pass when `ignore_short_ms` is truthy and positive and `frame_duration`
is positive). -/
def validMask (cents : List (Option α)) (frame_duration : α)
    (max_abs ignore_short_ms : Option α) : List Bool :=
  let valid := cents.map fun c => c.isSome
  match max_abs with
  | none => valid
  | some m =>
    if 0 < m then
      let outliers := cents.map (isOutlier m)
      match ignore_short_ms with
      | some ig =>
        if 0 < ig ∧ 0 < frame_duration then
          invalidateShortRuns (thresholdFrames ig frame_duration) outliers valid
        else cents.map fun c => (isOutlier m c = false && c.isSome : Bool)
      | none => cents.map fun c => (isOutlier m c = false && c.isSome : Bool)
    else valid

/-- `ce = cents[valid]`: the cents entries selected by the mask.  Positions
whose mask bit is set always hold a non-NaN value (the mask only ever clears
bits of the non-NaN base mask), so dropping a `none` there never happens. -/
def selectValid (cents : List (Option α)) (valid : List Bool) : List α :=
  (cents.zip valid).filterMap fun cv => if cv.2 then cv.1 else none

/-- The aggregate record built by `summarize_errors` from the selected cents
entries (`np.mean(np.abs(ce))`, `np.mean(np.abs(ce) <= t) * 100`, `len(ce)`). -/
def summaryOf (ce : List α) : Summary α :=
  { mean_abs_cents := some (npMean (ce.map fun x => |x|))
    pct_within_25 := some (npMean (ce.map fun x => if |x| ≤ 25 then 1 else 0) * 100)
    pct_within_50 := some (npMean (ce.map fun x => if |x| ≤ 50 then 1 else 0) * 100)
    pct_within_100 := some (npMean (ce.map fun x => if |x| ≤ 100 then 1 else 0) * 100)
    valid_frames := ce.length }

/-- `summarize_errors` from `analysis_utils.py`. -/
def summarize_errors (cents : List (Option α)) (frame_duration : α)
    (max_abs ignore_short_ms : Option α) : Summary α :=
  if (validMask cents frame_duration max_abs ignore_short_ms).any id then
    summaryOf (selectValid cents (validMask cents frame_duration max_abs ignore_short_ms))
  else allNullSummary

/-! Frame gating (`gate_frames` in `analysis_utils.py`).  The jump test takes
a base-2 logarithm, so this part of the embedding lives over `ℝ`; the
comparisons use the classical order on `ℝ`. -/

open Classical in
/-- `np.max(rms) if rms.size else 0`. -/
noncomputable def listMax : List ℝ → ℝ
  | [] => 0
  | x :: xs => xs.foldl max x

open Classical in
/-- The RMS part of `gate_frames`: start from all-ones and, when an energy
array is given, the ratio is positive and the peak energy is positive, keep
only frames with `rms >= rms_gate_ratio * max(rms)`. -/
noncomputable def baseKeep (n : ℕ) (rms : Option (List ℝ)) (rms_gate_ratio : ℝ) :
    List Bool :=
  match rms with
  | none => List.replicate n true
  | some r =>
    if 0 < rms_gate_ratio ∧ 0 < listMax r then
      r.map fun e => decide (rms_gate_ratio * listMax r ≤ e)
    else List.replicate n true

open Classical in
/-- The voicing / jump loop of `gate_frames`.  A NaN or non-positive frame is
dropped and leaves `prev` unchanged; a voiced frame failing the cents-jump
test against `prev` is dropped and leaves `prev` unchanged; every other
voiced frame keeps its RMS bit and becomes the new `prev` — note that this
includes frames whose RMS bit is already `false` (`prev = v` is reached
regardless of `keep[i]`).  `np.isfinite(prev)` of the source is always true
here since `prev` only ever holds a positive real. -/
noncomputable def jumpLoop (jump_gate_cents : ℝ) :
    Option ℝ → List (Option ℝ) → List Bool → List Bool
  | _, [], _ => []
  | _, _ :: _, [] => []
  | prev, v :: vs, k :: ks =>
    match v with
    | none => false :: jumpLoop jump_gate_cents prev vs ks
    | some x =>
      if x ≤ 0 then false :: jumpLoop jump_gate_cents prev vs ks
      else
        match prev with
        | some p =>
          if 0 < jump_gate_cents ∧ jump_gate_cents < |1200 * Real.logb 2 (x / p)| then
            false :: jumpLoop jump_gate_cents (some p) vs ks
          else k :: jumpLoop jump_gate_cents (some x) vs ks
        | none => k :: jumpLoop jump_gate_cents (some x) vs ks

/-- `gate_frames` from `analysis_utils.py`: RMS mask, then the voicing/jump
loop over it. -/
noncomputable def gate_frames (f0 : List (Option ℝ)) (rms : Option (List ℝ))
    (rms_gate_ratio jump_gate_cents : ℝ) : List Bool :=
  jumpLoop jump_gate_cents none f0 (baseKeep f0.length rms rms_gate_ratio)

/-- `np.where(mask, xs, np.nan)`. -/
def npWhere {β : Type} (mask : List Bool) (xs : List (Option β)) : List (Option β) :=
  List.zipWith (fun k v => if k then v else none) mask xs

/-- Voicing alone (frame is non-NaN and positive). -/
noncomputable def voicedMask (f0 : List (Option ℝ)) : List Bool :=
  f0.map fun v =>
    match v with
    | some x => decide (0 < x)
    | none => false

open Classical in
/-- Modelled from the spec sentence of claim C4: the variant of the jump loop
whose last-kept reference is updated ONLY by frames actually kept in the
returned mask (that is, frames dropped by the RMS gate do not update it).
This is the claimed behaviour, to be compared against `jumpLoop`. -/
noncomputable def jumpLoopSpecC4 (jump_gate_cents : ℝ) :
    Option ℝ → List (Option ℝ) → List Bool → List Bool
  | _, [], _ => []
  | _, _ :: _, [] => []
  | prev, v :: vs, k :: ks =>
    match v with
    | none => false :: jumpLoopSpecC4 jump_gate_cents prev vs ks
    | some x =>
      if x ≤ 0 then false :: jumpLoopSpecC4 jump_gate_cents prev vs ks
      else
        match prev with
        | some p =>
          if 0 < jump_gate_cents ∧ jump_gate_cents < |1200 * Real.logb 2 (x / p)| then
            false :: jumpLoopSpecC4 jump_gate_cents (some p) vs ks
          else
            k :: jumpLoopSpecC4 jump_gate_cents (if k then some x else some p) vs ks
        | none => k :: jumpLoopSpecC4 jump_gate_cents (if k then some x else none) vs ks

/-- The claimed variant of `gate_frames` (see `jumpLoopSpecC4`). -/
noncomputable def gate_frames_specC4 (f0 : List (Option ℝ)) (rms : Option (List ℝ))
    (rms_gate_ratio jump_gate_cents : ℝ) : List Bool :=
  jumpLoopSpecC4 jump_gate_cents none f0 (baseKeep f0.length rms rms_gate_ratio)

/-! The Reference Aligner: `compute_similarity` in `analysis_utils.py`,
with its helpers `align_arrays`, `_apply_offset`, `hz_to_midi_safe`,
`cents_error` and `pretty_midi.note_number_to_hz`.  The RMS series that the
source computes with `librosa.feature.rms` (an external DSP collaborator)
is taken as an input array. -/

open Classical in
/-- `np.round` / Python `round`: banker's rounding (round half to even). -/
noncomputable def npRound (x : ℝ) : ℤ :=
  if Int.fract x < 1/2 then ⌊x⌋
  else if 1/2 < Int.fract x then ⌊x⌋ + 1
  else if Even ⌊x⌋ then ⌊x⌋ else ⌊x⌋ + 1

open Classical in
/-- `hz_to_midi_safe` on one entry: `69 + 12*log2(f/440)` for positive
frequencies, NaN otherwise (NaN in, NaN out). -/
noncomputable def hz_to_midi_safe (f : Option ℝ) : Option ℝ :=
  match f with
  | some x => if 0 < x then some (69 + 12 * Real.logb 2 (x / 440)) else none
  | none => none

open Classical in
/-- `cents_error` on one aligned pair: `1200*log2(v/r)` where both are
positive, NaN otherwise (a NaN operand fails the positivity mask). -/
noncomputable def cents_error (v r : Option ℝ) : Option ℝ :=
  match v, r with
  | some x, some y => if 0 < x ∧ 0 < y then some (1200 * Real.logb 2 (x / y)) else none
  | _, _ => none

/-- `pretty_midi.note_number_to_hz`: `440 * 2**((note - 69)/12)`. -/
noncomputable def note_number_to_hz (m : ℝ) : ℝ := 440 * (2:ℝ) ^ ((m - 69) / 12)

/-- `align_arrays`: trim both arrays to the length of the shorter one. -/
def align_arrays {β : Type} (a b : List β) : List β × List β :=
  (a.take (min a.length b.length), b.take (min a.length b.length))

/-- `_apply_offset`: positive offsets drop leading vocal frames, negative
offsets drop leading reference frames. -/
def apply_offset (vf0 rf0 : List (Option ℝ)) (vtimes rtimes : List ℝ) (off : ℤ) :
    List (Option ℝ) × List (Option ℝ) × List ℝ × List ℝ :=
  if 0 < off then (vf0.drop off.toNat, rf0, vtimes.drop off.toNat, rtimes)
  else if off < 0 then (vf0, rf0.drop (-off).toNat, vtimes, rtimes.drop (-off).toNat)
  else (vf0, rf0, vtimes, rtimes)

/-- One per-frame record of the `frames` list built by `compute_similarity`. -/
structure FrameOut where
  time : ℝ
  vocal_hz : Option ℝ
  vocal_midi : Option ℝ
  ref_hz : Option ℝ
  ref_midi : Option ℤ
  cents_error : Option ℝ

/-- The `frames.append({...})` loop of `build_for_offset`: iterate over
`zip(vtimes, vf0, ref_target_hz)` while indexing `ref_midi_nearest` and `ce`
in lockstep (index accesses past the end, which the zip bound rules out for
`ce`, give NaN as the source does for `ref_midi_nearest`). -/
noncomputable def buildFrames :
    List (ℝ × Option ℝ × Option ℝ) → List (Option ℤ) → List (Option ℝ) →
      List FrameOut
  | [], _, _ => []
  | (t, v, r) :: rest, mids, ces =>
    { time := t
      vocal_hz := v
      vocal_midi := hz_to_midi_safe v
      ref_hz := r
      ref_midi := mids.head?.join
      cents_error := ces.head?.join } :: buildFrames rest mids.tail ces.tail

/-- `build_for_offset` inside `compute_similarity`: shift, align, quantize
the reference to the nearest equal-tempered frequency, compute the cents
error and summarize it. -/
noncomputable def build_for_offset (gated ref_f0 : List (Option ℝ))
    (vtimes rtimes : List ℝ)
    (frame_duration score_max_abs_cents ignore_short_outliers_ms : ℝ)
    (off : ℤ) : Summary ℝ × List FrameOut :=
  match apply_offset gated ref_f0 vtimes rtimes off with
  | (vf0a, rf0a, vta, rta) =>
    let ar := align_arrays vf0a rf0a
    let art := align_arrays vta rta
    let refMidiNearest := ar.2.map fun h => (hz_to_midi_safe h).map npRound
    let refTargetHz := refMidiNearest.map (Option.map fun m : ℤ => note_number_to_hz m)
    let ce := List.zipWith cents_error ar.1 refTargetHz
    let summary := summarize_errors ce frame_duration
      (if 0 < score_max_abs_cents then some score_max_abs_cents else none)
      (some ignore_short_outliers_ms)
    (summary, buildFrames (art.1.zip (ar.1.zip refTargetHz)) refMidiNearest ce)

/-- `int(round(max_delay_ms / 1000.0 / frame_duration))` when positive,
clamped to both contour lengths minus one. -/
noncomputable def max_offset_frames (max_delay_ms frame_duration : ℝ)
    (nv nr : ℕ) : ℤ :=
  let b0 : ℤ :=
    if 0 < max_delay_ms then npRound (max_delay_ms / 1000 / frame_duration) else 0
  if 0 < b0 then min b0 (min (max ((nv:ℤ) - 1) 0) (max ((nr:ℤ) - 1) 0)) else b0

/-- `list(range(a, b + 1))` over the integers. -/
def rangeZ (a b : ℤ) : List ℤ :=
  (List.range (b + 1 - a).toNat).map fun i : ℕ => a + (i : ℤ)

/-- The candidate offset list of `compute_similarity`: `[0]`, widened to
`range(-bound, bound + 1)` only when the bound is positive and
`penalize_late` is not set. -/
noncomputable def offsets_to_try (max_delay_ms frame_duration : ℝ) (nv nr : ℕ)
    (penalize_late : Bool) : List ℤ :=
  if 0 < max_offset_frames max_delay_ms frame_duration nv nr ∧ penalize_late = false
  then
    rangeZ (-(max_offset_frames max_delay_ms frame_duration nv nr))
      (max_offset_frames max_delay_ms frame_duration nv nr)
  else [0]

/-- The running best of the offset search (`best_summary`, `best_frames`,
`best_offset`, `best_score`); Python's `float("inf")` is `⊤`. -/
structure BestState where
  best_summary : Option (Summary ℝ)
  best_frames : Option (List FrameOut)
  best_offset : ℤ
  best_score : WithTop ℝ

/-- `summary["mean_abs_cents"] if ... is not None else float("inf")`. -/
def scoreOf (s : Summary ℝ) : WithTop ℝ :=
  match s.mean_abs_cents with
  | some x => (x : WithTop ℝ)
  | none => ⊤

open Classical in
/-- One iteration of the `for off in offsets_to_try` selection loop. -/
noncomputable def selStep (build : ℤ → Summary ℝ × List FrameOut)
    (s : BestState) (off : ℤ) : BestState :=
  if scoreOf (build off).1 < s.best_score then
    { best_summary := some (build off).1, best_frames := some (build off).2,
      best_offset := off, best_score := scoreOf (build off).1 }
  else s

/-- The `(summary, frames, offset_info)` result of `compute_similarity`. -/
structure SimilarityResult where
  summary : Summary ℝ
  frames : List FrameOut
  offset_frames : ℤ
  offset_ms : ℝ

/-- `compute_similarity` from `analysis_utils.py`.  `vocal_rms` stands for
the `librosa.feature.rms(...)` series the source computes from the waveform
(external DSP); `frame_duration = hop_length / vocal_sr`. -/
noncomputable def compute_similarity (vocal_f0_raw : List (Option ℝ))
    (vocal_rms : List ℝ) (vocal_times : List ℝ) (ref_f0 : List (Option ℝ))
    (ref_times : List ℝ) (hop_length vocal_sr : ℝ)
    (rms_gate_ratio jump_gate_cents score_max_abs_cents
      ignore_short_outliers_ms max_delay_ms : ℝ)
    (penalize_late : Bool) : SimilarityResult :=
  let keep_mask := gate_frames vocal_f0_raw (some vocal_rms) rms_gate_ratio
    jump_gate_cents
  let gated := npWhere keep_mask vocal_f0_raw
  let frame_duration := hop_length / vocal_sr
  let offs := offsets_to_try max_delay_ms frame_duration vocal_times.length
    ref_times.length penalize_late
  let build := build_for_offset gated ref_f0 vocal_times ref_times frame_duration
    score_max_abs_cents ignore_short_outliers_ms
  let final := offs.foldl (selStep build) ⟨none, none, 0, ⊤⟩
  { summary := final.best_summary.getD allNullSummary
    frames := final.best_frames.getD []
    offset_frames := final.best_offset
    offset_ms := final.best_offset * frame_duration * 1000 }

/-! The Note Segmenter: `segment_notes` (quantized-pitch runs, with its inner
`flush`), `_segment_notes_by_voicing` and the note builder of `analyze_take`,
all from `python/dutils/pitch_utils.py`. -/

/-- `librosa.hz_to_midi`: `12 * (log2(f) - log2(440)) + 69`. -/
noncomputable def hz_to_midi (f : ℝ) : ℝ :=
  12 * (Real.logb 2 f - Real.logb 2 440) + 69

/-- `librosa.midi_to_hz`: `440 * 2**((midi - 69)/12)` (the same formula as
`pretty_midi.note_number_to_hz`). -/
noncomputable def midi_to_hz (m : ℝ) : ℝ := note_number_to_hz m

open Classical in
/-- `np.median`: sort, take the middle element (odd length) or the mean of
the two middle elements (even length).  The source never takes a median of
an empty array (`flush` and `analyze_take` guard against it); the value 0
returned here for `[]` is arbitrary. -/
noncomputable def npMedian (xs : List ℝ) : ℝ :=
  let s := xs.insertionSort (· ≤ ·)
  if xs.length % 2 = 1 then s.getD (xs.length / 2) 0
  else (s.getD (xs.length / 2 - 1) 0 + s.getD (xs.length / 2) 0) / 2

/-- A note of the quantized-pitch-run segmenter (`segment_notes`); the
`note_name` string is presentation only and is omitted. -/
structure NoteQ where
  start_idx : ℕ
  end_idx : ℕ
  start_time : ℝ
  end_time : ℝ
  duration : ℝ
  measured_hz : ℝ
  target_hz : ℝ
  cents_error : ℝ
  midi : ℤ

open Classical in
/-- The `flush` closure of `segment_notes`.  `current` carries the member
frames as (index, time, frequency) triples — the source stores indices and
re-reads `times[idxs]`, `f0[idxs]` and `midi_all[idxs] = hz_to_midi(f0[idxs])`,
which yields exactly these values.  A run shorter than
`min_note_len_frames` is discarded.  (`flush` is only ever called with a
nonempty `current`; the empty case returns `none` to keep the function
total.) -/
noncomputable def flushNote (min_note_len_frames : ℕ)
    (current : List (ℕ × ℝ × ℝ)) : Option NoteQ :=
  if current.length < min_note_len_frames ∨ current.length = 0 then none
  else
    let hz_vals := current.map fun c => c.2.2
    let t_vals := current.map fun c => c.2.1
    let midi_med := npMedian (hz_vals.map hz_to_midi)
    let midi_round := npRound midi_med
    let target_hz := midi_to_hz midi_round
    let measured_hz := npMedian hz_vals
    some { start_idx := (current.headD (0, 0, 0)).1
           end_idx := ((current.getLast?).getD (0, 0, 0)).1
           start_time := t_vals.headD 0
           end_time := (t_vals.getLast?).getD 0
           duration := (t_vals.getLast?).getD 0 - t_vals.headD 0
           measured_hz := measured_hz
           target_hz := target_hz
           cents_error :=
             if 0 < measured_hz ∧ 0 < target_hz then
               1200 * Real.logb 2 (measured_hz / target_hz)
             else 0
           midi := midi_round }

open Classical in
/-- The frame loop of `segment_notes`: start a run at each voiced frame,
flush when the quantized MIDI value changes or a NaN / non-positive frame
interrupts, flush the trailing run at the end. -/
noncomputable def segmentGo (min_len : ℕ) :
    List (ℕ × ℝ × Option ℝ) → List (ℕ × ℝ × ℝ) → Option ℤ → List NoteQ
  | [], current, _ => (flushNote min_len current).toList
  | (i, t, f) :: rest, current, current_midi =>
    match f with
    | none => (flushNote min_len current).toList ++ segmentGo min_len rest [] none
    | some x =>
      if x ≤ 0 then (flushNote min_len current).toList ++ segmentGo min_len rest [] none
      else
        let midi_r := npRound (hz_to_midi x)
        if current.length = 0 then segmentGo min_len rest [(i, t, x)] (some midi_r)
        else if some midi_r ≠ current_midi then
          (flushNote min_len current).toList ++ segmentGo min_len rest [(i, t, x)] (some midi_r)
        else segmentGo min_len rest (current ++ [(i, t, x)]) current_midi

/-- `segment_notes(times, f0, min_note_len_frames)`. -/
noncomputable def segment_notes (times : List ℝ) (f0 : List (Option ℝ))
    (min_note_len_frames : ℕ) : List NoteQ :=
  segmentGo min_note_len_frames ((times.zip f0).enum) [] none

/-- A note of `analyze_take` (voicing+gap+jump strategy); the `note_name`
string is presentation only and is omitted. -/
structure NoteV where
  note_index : ℕ
  start_time : ℝ
  end_time : ℝ
  duration : ℝ
  measured_hz : ℝ
  target_hz : ℝ
  cents_error : ℝ
  frame_times : List ℝ
  frame_hz : List ℝ

open Classical in
/-- The note construction of `analyze_take` for one `(start_i, end_i)` run:
`measured_hz` is the MEAN of the member frequencies (`np.mean(note_f0)`),
the target is the equal-tempered pitch nearest that mean, and empty runs
are skipped (`if note_f0.size == 0: continue`). -/
noncomputable def buildVoicingNote (note_idx : ℕ) (note_times note_f0 : List ℝ) :
    Option NoteV :=
  if note_f0.length = 0 then none
  else
    let mean_f0 := npMean note_f0
    let midi_rounded := npRound (hz_to_midi mean_f0)
    let target_hz := midi_to_hz midi_rounded
    some { note_index := note_idx
           start_time := note_times.headD 0
           end_time := (note_times.getLast?).getD 0
           duration := (note_times.getLast?).getD 0 - note_times.headD 0
           measured_hz := mean_f0
           target_hz := target_hz
           cents_error := 1200 * Real.logb 2 (mean_f0 / target_hz)
           frame_times := note_times
           frame_hz := note_f0 }

/-- numpy boolean-mask indexing `xs[mask]`. -/
def maskFilter {β : Type} (xs : List β) (mask : List Bool) : List β :=
  (xs.zip mask).filterMap fun p => if p.2 then some p.1 else none

open Classical in
/-- The boundary loop of `_segment_notes_by_voicing`: `fuel` counts the
remaining iterations of `for i in range(1, n)` (so `fuel = n - i`), and the
final `(start_idx, n - 1)` boundary is emitted when the loop ends.  A new
note starts when the time gap exceeds `max_gap_sec` or, otherwise, when the
cents jump between consecutive voiced frames exceeds `max_jump_cents`. -/
noncomputable def segVoicingGo (vt vf : List ℝ) (max_gap_sec max_jump_cents : ℝ)
    (n : ℕ) : ℕ → ℕ → ℕ → List (ℕ × ℕ)
  | 0, _, start => [(start, n - 1)]
  | fuel + 1, i, start =>
    if max_gap_sec < vt.getD i 0 - vt.getD (i - 1) 0 ∨
        max_jump_cents < |1200 * Real.logb 2 (vf.getD i 0 / vf.getD (i - 1) 0)| then
      (start, i - 1) :: segVoicingGo vt vf max_gap_sec max_jump_cents n fuel (i + 1) i
    else segVoicingGo vt vf max_gap_sec max_jump_cents n fuel (i + 1) start

/-- `_segment_notes_by_voicing`: select the voiced frames, return them with
the list of (inclusive) note boundaries. -/
noncomputable def segment_notes_by_voicing (times f0 : List ℝ)
    (voiced_mask : List Bool) (max_gap_sec max_jump_cents : ℝ) :
    List ℝ × List ℝ × List (ℕ × ℕ) :=
  let vt := maskFilter times voiced_mask
  let vf := maskFilter f0 voiced_mask
  if vt.length = 0 then (vt, vf, [])
  else
    (vt, vf,
      segVoicingGo vt vf max_gap_sec max_jump_cents vt.length (vt.length - 1) 1 0)

/-! Basic lemmas about the run-invalidation pass. -/

theorem invalidateGo_nil (thr fuel : ℕ) (v : List Bool) :
    invalidateGo thr fuel [] v = v := by
  cases fuel <;> simp [invalidateGo]

theorem invalidateGo_cons_nil (thr fuel : ℕ) (b : Bool) (os : List Bool) :
    invalidateGo thr fuel (b :: os) [] = [] := by
  cases fuel <;> cases b <;> simp [invalidateGo]

theorem invalidateGo_false_cons (thr fuel : ℕ) (os : List Bool) (w : Bool)
    (vs : List Bool) :
    invalidateGo thr (fuel + 1) (false :: os) (w :: vs) =
      w :: invalidateGo thr fuel os vs := by
  simp [invalidateGo]

theorem invalidateGo_true_cons (thr fuel : ℕ) (os : List Bool) (w : Bool)
    (vs : List Bool) :
    invalidateGo thr (fuel + 1) (true :: os) (w :: vs) =
      (if (os.takeWhile id).length + 1 < thr then
          List.replicate ((os.takeWhile id).length + 1) false
        else w :: vs.take ((os.takeWhile id).length + 1 - 1)) ++
        invalidateGo thr fuel (os.drop ((os.takeWhile id).length + 1 - 1))
          (vs.drop ((os.takeWhile id).length + 1 - 1)) := by
  simp [invalidateGo]

theorem invalidateGo_fuel (thr : ℕ) :
    ∀ (f : ℕ) (o v : List Bool) (f₂ : ℕ), o.length ≤ f → o.length ≤ f₂ →
      invalidateGo thr f o v = invalidateGo thr f₂ o v := by
  intro f
  induction f with
  | zero =>
    intro o v f₂ h _
    have : o = [] := List.length_eq_zero.mp (Nat.le_zero.mp h)
    subst this
    rw [invalidateGo_nil, invalidateGo_nil]
  | succ g ih =>
    intro o v f₂ h h₂
    cases o with
    | nil => rw [invalidateGo_nil, invalidateGo_nil]
    | cons b os =>
      cases f₂ with
      | zero => exact absurd h₂ (by simp)
      | succ g₂ =>
        cases v with
        | nil => rw [invalidateGo_cons_nil, invalidateGo_cons_nil]
        | cons w vs =>
          have hg : os.length ≤ g := by simpa using h
          have hg₂ : os.length ≤ g₂ := by simpa using h₂
          have hdg : (os.drop ((os.takeWhile id).length + 1 - 1)).length ≤ g :=
            le_trans (by simp [List.length_drop]) hg
          have hdg₂ : (os.drop ((os.takeWhile id).length + 1 - 1)).length ≤ g₂ :=
            le_trans (by simp [List.length_drop]) hg₂
          cases b with
          | false =>
            rw [invalidateGo_false_cons, invalidateGo_false_cons, ih os vs g₂ hg hg₂]
          | true =>
            rw [invalidateGo_true_cons, invalidateGo_true_cons,
              ih (os.drop ((os.takeWhile id).length + 1 - 1))
                (vs.drop ((os.takeWhile id).length + 1 - 1)) g₂ hdg hdg₂]

theorem invalidateShortRuns_nil (thr : ℕ) (v : List Bool) :
    invalidateShortRuns thr [] v = v := invalidateGo_nil thr 0 v

theorem invalidateShortRuns_cons_nil (thr : ℕ) (b : Bool) (os : List Bool) :
    invalidateShortRuns thr (b :: os) [] = [] := invalidateGo_cons_nil ..

theorem invalidateShortRuns_false_cons (thr : ℕ) (os : List Bool) (w : Bool)
    (vs : List Bool) :
    invalidateShortRuns thr (false :: os) (w :: vs) =
      w :: invalidateShortRuns thr os vs := by
  unfold invalidateShortRuns
  rw [List.length_cons, invalidateGo_false_cons]

theorem invalidateShortRuns_true_cons (thr : ℕ) (os : List Bool) (w : Bool)
    (vs : List Bool) :
    invalidateShortRuns thr (true :: os) (w :: vs) =
      (if (os.takeWhile id).length + 1 < thr then
          List.replicate ((os.takeWhile id).length + 1) false
        else w :: vs.take ((os.takeWhile id).length + 1 - 1)) ++
        invalidateShortRuns thr (os.drop ((os.takeWhile id).length + 1 - 1))
          (vs.drop ((os.takeWhile id).length + 1 - 1)) := by
  unfold invalidateShortRuns
  rw [List.length_cons, invalidateGo_true_cons,
    invalidateGo_fuel thr os.length (os.drop ((os.takeWhile id).length + 1 - 1))
      (vs.drop ((os.takeWhile id).length + 1 - 1))
      (os.drop ((os.takeWhile id).length + 1 - 1)).length
      (by simp [List.length_drop]) le_rfl]

theorem invalidateShortRuns_all_false (thr : ℕ) :
    ∀ (o v : List Bool), (∀ b ∈ o, b = false) → invalidateShortRuns thr o v = v := by
  intro o
  induction o with
  | nil => intro v _; exact invalidateShortRuns_nil thr v
  | cons b os ih =>
    intro v h
    have hb : b = false := h b (by simp)
    subst hb
    cases v with
    | nil => exact invalidateShortRuns_cons_nil ..
    | cons w vs =>
      rw [invalidateShortRuns_false_cons, ih vs fun x hx => h x (by simp [hx])]

theorem false_mem_of_getLast (xs : List Bool) (hne : xs ≠ [])
    (h : xs.getLast? ≠ some true) : false ∈ xs := by
  have hmem : xs.getLast hne ∈ xs := List.getLast_mem hne
  have hlast : xs.getLast? = some (xs.getLast hne) := List.getLast?_eq_getLast xs hne
  cases hb : xs.getLast hne with
  | false => rw [← hb]; exact hmem
  | true => rw [hb] at hlast; exact absurd hlast h

theorem takeWhile_id_length_lt (xs : List Bool) (h : false ∈ xs) :
    (xs.takeWhile id).length < xs.length := by
  induction xs with
  | nil => cases h
  | cons b t ih =>
    cases b with
    | false => simp [List.takeWhile]
    | true =>
      have ht : false ∈ t := by
        cases List.mem_cons.mp h with
        | inl h0 => cases h0
        | inr h0 => exact h0
      simpa [List.takeWhile] using ih ht

theorem takeWhile_id_append_left (xs ys : List Bool) (h : false ∈ xs) :
    (xs ++ ys).takeWhile id = xs.takeWhile id := by
  induction xs with
  | nil => cases h
  | cons b t ih =>
    cases b with
    | false => simp [List.takeWhile]
    | true =>
      have ht : false ∈ t := by
        cases List.mem_cons.mp h with
        | inl h0 => cases h0
        | inr h0 => exact h0
      simp [List.takeWhile, ih ht]

theorem takeWhile_id_replicate_append (k : ℕ) (suf : List Bool)
    (hsuf : suf.head? ≠ some true) :
    (List.replicate k true ++ suf).takeWhile id = List.replicate k true := by
  induction k with
  | zero =>
    cases suf with
    | nil => rfl
    | cons b t =>
      cases b with
      | false => simp [List.takeWhile]
      | true => exact absurd rfl hsuf
  | succ j ih => simpa [List.replicate_succ, List.takeWhile] using ih

theorem takeWhile_length_le {β : Type} (p : β → Bool) :
    ∀ xs : List β, (xs.takeWhile p).length ≤ xs.length := by
  intro xs
  induction xs with
  | nil => simp
  | cons x t ih =>
    by_cases hx : p x = true
    · simp only [List.takeWhile, hx, List.length_cons]
      omega
    · simp [List.takeWhile, hx]

theorem getLast?_drop_of_lt {β : Type} :
    ∀ (xs : List β) (n : ℕ), n < xs.length → (xs.drop n).getLast? = xs.getLast? := by
  intro xs
  induction xs with
  | nil => intro n h; simp at h
  | cons x t ih =>
    intro n h
    cases n with
    | zero => rfl
    | succ m =>
      have hm : m < t.length := by simpa using h
      have ht : t ≠ [] := by
        intro h0
        rw [h0] at hm
        simp at hm
      rw [List.drop_succ_cons, ih m hm]
      cases t with
      | nil => exact absurd rfl ht
      | cons y u => rw [List.getLast?_cons_cons]

theorem invalidateShortRuns_length (thr : ℕ) :
    ∀ (n : ℕ) (o v : List Bool), o.length ≤ n → o.length = v.length →
      (invalidateShortRuns thr o v).length = v.length := by
  intro n
  induction n with
  | zero =>
    intro o v hn hl
    have : o = [] := List.length_eq_zero.mp (Nat.le_zero.mp hn)
    subst this
    rw [invalidateShortRuns_nil]
  | succ n ih =>
    intro o v hn hl
    cases o with
    | nil => rw [invalidateShortRuns_nil]
    | cons b os =>
      cases v with
      | nil => simp at hl
      | cons w vs =>
        have hos : os.length = vs.length := by simpa using hl
        have hosn : os.length ≤ n := by simpa using hn
        cases b with
        | false =>
          rw [invalidateShortRuns_false_cons]
          simpa using ih os vs hosn hos
        | true =>
          rw [invalidateShortRuns_true_cons]
          have htw : (os.takeWhile id).length ≤ os.length := takeWhile_length_le id os
          have hrec := ih (os.drop ((os.takeWhile id).length + 1 - 1))
            (vs.drop ((os.takeWhile id).length + 1 - 1))
            (le_trans (by simp [List.length_drop]) hosn)
            (by simp [List.length_drop, hos])
          rw [List.length_append, hrec]
          by_cases hk : (os.takeWhile id).length + 1 < thr
          · rw [if_pos hk]
            simp only [List.length_replicate, List.length_drop, List.length_cons]
            omega
          · rw [if_neg hk]
            simp only [List.length_cons, List.length_take, List.length_drop]
            omega

/-- On an all-null cents array the validity mask is all-false, for every
parameter setting. -/
theorem validMask_all_none (cents : List (Option α)) (fd : α)
    (ma ig : Option α) (h : ∀ c ∈ cents, c = none) :
    ∀ b ∈ validMask cents fd ma ig, b = false := by
  have hbase : ∀ b ∈ cents.map (fun c : Option α => c.isSome), b = false := by
    intro b hb
    obtain ⟨c, hc, rfl⟩ := List.mem_map.mp hb
    rw [h c hc, Option.isSome_none]
  have hout : ∀ m : α, ∀ b ∈ cents.map (isOutlier m), b = false := by
    intro m b hb
    obtain ⟨c, hc, rfl⟩ := List.mem_map.mp hb
    rw [h c hc]; rfl
  have hband : ∀ m : α,
      ∀ b ∈ cents.map (fun c => (isOutlier m c = false && c.isSome : Bool)), b = false := by
    intro m b hb
    obtain ⟨c, hc, rfl⟩ := List.mem_map.mp hb
    rw [h c hc]; rfl
  intro b hb
  simp only [validMask] at hb
  cases ma with
  | none => exact hbase b hb
  | some m =>
    simp only at hb
    by_cases hm : 0 < m
    · rw [if_pos hm] at hb
      cases ig with
      | none => exact hband m b hb
      | some g =>
        simp only at hb
        by_cases hg : 0 < g ∧ 0 < fd
        · rw [if_pos hg, invalidateShortRuns_all_false _ _ _ (hout m)] at hb
          exact hbase b hb
        · rw [if_neg hg] at hb
          exact hband m b hb
    · rw [if_neg hm] at hb
      exact hbase b hb

/-- Claim C9: `summarize_errors` on an all-null input returns the all-null
summary (`valid_frames = 0`, every other field null), for every `max_abs`,
`ignore_short_ms` and `frame_duration`; it is a total function and the
returned fields are `none`, never NaN. -/
theorem summarize_errors_all_none (cents : List (Option α)) (fd : α)
    (ma ig : Option α) (h : ∀ c ∈ cents, c = none) :
    summarize_errors cents fd ma ig = allNullSummary := by
  unfold summarize_errors
  rw [if_neg]
  intro hany
  obtain ⟨b, hb, hbt⟩ := List.any_eq_true.mp hany
  have := validMask_all_none cents fd ma ig h b hb
  simp [this] at hbt

/-- Witness for C9 at a concrete all-null input. -/
theorem summarize_errors_all_none_witness :
    summarize_errors ([none, none] : List (Option ℚ)) (1/100) (some 100) (some 5) =
      allNullSummary :=
  summarize_errors_all_none [none, none] (1/100) (some 100) (some 5) (by decide)

omit [FloorRing α] in
/-- Indicator sums are threshold counts. -/
theorem indicator_sum (l : List α) (p : α → Prop) [DecidablePred p] :
    (l.map fun x => if p x then (1:α) else 0).sum =
      (((l.countP (fun x => decide (p x))) : ℕ) : α) := by
  induction l with
  | nil => simp
  | cons x t ih =>
    by_cases hx : p x <;> simp [List.countP_cons, hx, ih, add_comm]

/-- Claim C8: whenever the percentage fields of a summary are non-null,
they are monotone in the threshold: pct_within_25 ≤ pct_within_50 ≤
pct_within_100. -/
theorem pct_within_monotone (cents : List (Option α)) (fd : α)
    (ma ig : Option α) (a b c : α)
    (h25 : (summarize_errors cents fd ma ig).pct_within_25 = some a)
    (h50 : (summarize_errors cents fd ma ig).pct_within_50 = some b)
    (h100 : (summarize_errors cents fd ma ig).pct_within_100 = some c) :
    a ≤ b ∧ b ≤ c := by
  unfold summarize_errors at h25 h50 h100
  by_cases hany : (validMask cents fd ma ig).any id
  · rw [if_pos hany] at h25 h50 h100
    set ce := selectValid cents (validMask cents fd ma ig) with hce
    have ha : a = npMean (ce.map fun x => if |x| ≤ 25 then 1 else 0) * 100 :=
      (Option.some_inj.mp h25).symm
    have hb : b = npMean (ce.map fun x => if |x| ≤ 50 then 1 else 0) * 100 :=
      (Option.some_inj.mp h50).symm
    have hc : c = npMean (ce.map fun x => if |x| ≤ 100 then 1 else 0) * 100 :=
      (Option.some_inj.mp h100).symm
    have key : ∀ s t : α, s ≤ t →
        npMean (ce.map fun x => if |x| ≤ s then (1:α) else 0) * 100 ≤
          npMean (ce.map fun x => if |x| ≤ t then (1:α) else 0) * 100 := by
      intro s t hst
      unfold npMean
      rw [indicator_sum ce (fun x => |x| ≤ s), indicator_sum ce (fun x => |x| ≤ t)]
      have hcount : (ce.countP fun x => decide (|x| ≤ s)) ≤
          (ce.countP fun x => decide (|x| ≤ t)) := by
        apply List.countP_mono_left
        intro x _ hx
        simp only [decide_eq_true_eq] at hx ⊢
        exact le_trans hx hst
      simp only [List.length_map]
      apply mul_le_mul_of_nonneg_right _ (by norm_num : (0:α) ≤ 100)
      exact div_le_div_of_nonneg_right (by exact_mod_cast hcount) (Nat.cast_nonneg _)
    subst ha hb hc
    exact ⟨key 25 50 (by norm_num), key 50 100 (by norm_num)⟩
  · rw [if_neg hany] at h25
    simp [allNullSummary] at h25

/-- Witness for C8 at a concrete input with non-null percentages. -/
theorem pct_within_monotone_witness :
    (100/3:ℚ) ≤ 100 ∧ (100:ℚ) ≤ 100 := by
  have hsel : selectValid ([some 30, some 10, some (-40)] : List (Option ℚ))
      (validMask ([some 30, some 10, some (-40)] : List (Option ℚ)) (1:ℚ) none none) =
      ([30, 10, -40] : List ℚ) := by decide
  refine pct_within_monotone ([some 30, some 10, some (-40)] : List (Option ℚ)) 1
    none none (100/3) 100 100 ?_ ?_ ?_ <;>
  · unfold summarize_errors
    rw [if_pos (by decide), hsel]
    unfold summaryOf npMean
    norm_num

/-- Processing a prefix whose runs are self-contained (it does not end inside
an outlier run) is independent of the rest of the array. -/
theorem invalidateShortRuns_append (thr : ℕ) :
    ∀ (n : ℕ) (o1 v1 : List Bool), o1.length ≤ n → o1.getLast? ≠ some true →
      o1.length = v1.length → ∀ (o2 v2 : List Bool),
      invalidateShortRuns thr (o1 ++ o2) (v1 ++ v2) =
        invalidateShortRuns thr o1 v1 ++ invalidateShortRuns thr o2 v2 := by
  intro n
  induction n with
  | zero =>
    intro o1 v1 hn _ hlen o2 v2
    have h1 : o1 = [] := List.length_eq_zero.mp (Nat.le_zero.mp hn)
    subst h1
    have h2 : v1 = [] := List.length_eq_zero.mp (by omega)
    subst h2
    simp [invalidateShortRuns_nil]
  | succ n ih =>
    intro o1 v1 hn hlast hlen o2 v2
    cases o1 with
    | nil =>
      have h2 : v1 = [] := List.length_eq_zero.mp (by simpa using hlen.symm)
      subst h2
      simp [invalidateShortRuns_nil]
    | cons b os =>
      cases v1 with
      | nil => simp at hlen
      | cons w vs =>
        have hlen' : os.length = vs.length := by simpa using hlen
        have hn' : os.length ≤ n := by simpa using hn
        cases b with
        | false =>
          have hlast' : os.getLast? ≠ some true := by
            cases os with
            | nil => simp
            | cons c t => rwa [List.getLast?_cons_cons] at hlast
          rw [List.cons_append, List.cons_append, invalidateShortRuns_false_cons,
            invalidateShortRuns_false_cons, ih os vs hn' hlast' hlen' o2 v2,
            List.cons_append]
        | true =>
          have hos_ne : os ≠ [] := by
            rintro rfl
            exact hlast rfl
          have hlast' : os.getLast? ≠ some true := by
            cases os with
            | nil => exact absurd rfl hos_ne
            | cons c t => rwa [List.getLast?_cons_cons] at hlast
          have hfalse : false ∈ os := false_mem_of_getLast os hos_ne hlast'
          have htw := takeWhile_id_append_left os o2 hfalse
          have hlt := takeWhile_id_length_lt os hfalse
          rw [List.cons_append, List.cons_append, invalidateShortRuns_true_cons,
            invalidateShortRuns_true_cons, htw]
          simp only [Nat.add_sub_cancel]
          have hd1 : (os ++ o2).drop ((os.takeWhile id).length) =
              os.drop ((os.takeWhile id).length) ++ o2 := by
            rw [List.drop_append_eq_append_drop,
              show (os.takeWhile id).length - os.length = 0 by omega, List.drop_zero]
          have hd2 : (vs ++ v2).drop ((os.takeWhile id).length) =
              vs.drop ((os.takeWhile id).length) ++ v2 := by
            rw [List.drop_append_eq_append_drop,
              show (os.takeWhile id).length - vs.length = 0 by omega, List.drop_zero]
          have ht2 : (vs ++ v2).take ((os.takeWhile id).length) =
              vs.take ((os.takeWhile id).length) := by
            rw [List.take_append_eq_append_take,
              show (os.takeWhile id).length - vs.length = 0 by omega, List.take_zero,
              List.append_nil]
          rw [hd1, hd2, ht2,
            ih (os.drop ((os.takeWhile id).length)) (vs.drop ((os.takeWhile id).length))
              (le_trans (by simp [List.length_drop]) hn')
              (by rw [getLast?_drop_of_lt os _ hlt]; exact hlast')
              (by simp [List.length_drop, hlen']) o2 v2,
            List.append_assoc]

/-- Processing an array that starts with a maximal outlier run of length `k`:
the run is blanked when `k < thr` and kept when `k ≥ thr`, and processing
continues independently after it. -/
theorem invalidateShortRuns_run (thr k : ℕ) (hk : 0 < k) (suf : List Bool)
    (hsuf : suf.head? ≠ some true) (v : List Bool) (hv : v.length = k + suf.length) :
    invalidateShortRuns thr (List.replicate k true ++ suf) v =
      (if k < thr then List.replicate k false else v.take k) ++
        invalidateShortRuns thr suf (v.drop k) := by
  obtain ⟨j, rfl⟩ : ∃ j, k = j + 1 := ⟨k - 1, by omega⟩
  cases v with
  | nil => simp only [List.length_nil] at hv; omega
  | cons w vs =>
    rw [List.replicate_succ, List.cons_append, invalidateShortRuns_true_cons,
      takeWhile_id_replicate_append j suf hsuf, List.length_replicate]
    simp only [Nat.add_sub_cancel]
    have hd : (List.replicate j true ++ suf).drop j = suf := by
      rw [List.drop_append_eq_append_drop, List.drop_replicate, Nat.sub_self,
        List.replicate_zero, List.length_replicate, Nat.sub_self, List.drop_zero,
        List.nil_append]
    rw [hd, List.take_succ_cons, List.drop_succ_cons]

/-- The maximal-run characterisation: inside the processed mask, the slice
corresponding to a maximal outlier run of length `k` is all-`false` when
`k < thr` and untouched when `k ≥ thr`. -/
theorem invalidateShortRuns_maximal_run (thr : ℕ) (pre suf valid : List Bool)
    (k : ℕ) (hk : 0 < k) (hpre : pre.getLast? ≠ some true)
    (hsuf : suf.head? ≠ some true)
    (hlen : valid.length = pre.length + k + suf.length) :
    ((invalidateShortRuns thr (pre ++ (List.replicate k true ++ suf)) valid).drop
        pre.length).take k =
      if k < thr then List.replicate k false
      else (valid.drop pre.length).take k := by
  have hsplit := List.take_append_drop pre.length valid
  have hv1len : (valid.take pre.length).length = pre.length := by
    rw [List.length_take]; omega
  have hv2len : (valid.drop pre.length).length = k + suf.length := by
    rw [List.length_drop]; omega
  nth_rewrite 1 [← hsplit]
  rw [invalidateShortRuns_append thr pre.length pre (valid.take pre.length) le_rfl
    hpre hv1len.symm _ (valid.drop pre.length)]
  have hlen1 : (invalidateShortRuns thr pre (valid.take pre.length)).length =
      pre.length := by
    rw [invalidateShortRuns_length thr pre.length pre (valid.take pre.length) le_rfl
      hv1len.symm, hv1len]
  have hdropA : ∀ (a b : List Bool), a.length = pre.length →
      (a ++ b).drop pre.length = b := by
    intro a b hab
    rw [← hab, List.drop_left]
  have htakeK : ∀ (a b : List Bool), a.length = k → (a ++ b).take k = a := by
    intro a b hab
    rw [← hab, List.take_left]
  rw [hdropA _ _ hlen1,
    invalidateShortRuns_run thr k hk suf hsuf (valid.drop pre.length) hv2len]
  by_cases hthr : k < thr
  · rw [if_pos hthr, htakeK _ _ (by simp)]
  · rw [if_neg hthr, htakeK _ _ (by rw [List.length_take]; omega)]

/-- Under the short-run guard, the mask is the run-invalidation pass applied
to the outlier flags over the non-NaN base mask. -/
theorem validMask_ignore_short (cents : List (Option α)) (fd m ig : α)
    (hm : 0 < m) (hig : 0 < ig) (hfd : 0 < fd) :
    validMask cents fd (some m) (some ig) =
      invalidateShortRuns (thresholdFrames ig fd) (cents.map (isOutlier m))
        (cents.map fun c => c.isSome) := by
  simp only [validMask]
  rw [if_pos hm, if_pos ⟨hig, hfd⟩]

theorem thresholdFrames_eval : thresholdFrames (1000:ℚ) (1/100) = 100 := by
  unfold thresholdFrames
  rw [show (1000:ℚ) / 1000 / (1/100) = ((100:ℤ):ℚ) by norm_num, Int.floor_intCast]
  rfl

/-- The five-frame example of the spec: the validity mask with short-run
gating active (`ignore_short_ms = 1000 ms`, `frame_duration = 10 ms`). -/
theorem validMask_example_ignore :
    validMask ([some 10, some 15, some (-5), some 400, some 12] : List (Option ℚ))
      (1/100) (some 100) (some 1000) = [true, true, true, false, true] := by
  rw [validMask_ignore_short _ _ _ _ (by norm_num) (by norm_num) (by norm_num),
    thresholdFrames_eval]
  decide

/-- The five-frame example with `ignore_short_ms = 0`: plain outlier
exclusion. -/
theorem validMask_example_zero :
    validMask ([some 10, some 15, some (-5), some 400, some 12] : List (Option ℚ))
      (1/100) (some 100) (some 0) = [true, true, true, false, true] := by
  decide

/-- Claim C1 as stated is false: with `ignore_short_ms` large enough to
cover the 1-frame outlier run, `summarize_errors` EXCLUDES the 400 frame
(valid_frames = 4, mean = 21/2 = 10.5) instead of keeping it valid
(which would give valid_frames = 5 and mean 442/5 = 88.4). -/
theorem C1_counterexample :
    (summarize_errors ([some 10, some 15, some (-5), some 400, some 12] :
        List (Option ℚ)) (1/100) (some 100) (some 1000)).valid_frames = 4 ∧
    (summarize_errors ([some 10, some 15, some (-5), some 400, some 12] :
        List (Option ℚ)) (1/100) (some 100) (some 1000)).mean_abs_cents =
      some (21/2) ∧
    (21/2 : ℚ) ≠ 442/5 := by
  have hsel : selectValid
      ([some 10, some 15, some (-5), some 400, some 12] : List (Option ℚ))
      [true, true, true, false, true] = ([10, 15, -5, 12] : List ℚ) := by decide
  unfold summarize_errors
  rw [validMask_example_ignore, if_pos (by decide), hsel]
  refine ⟨rfl, ?_, by norm_num⟩
  unfold summaryOf npMean
  norm_num

/-- Claim C1 (amended): with `max_abs > 0`, `ignore_short_ms > 0` and
`frame_duration > 0`, each maximal run of consecutive outlier frames
(|cents| > max_abs) whose length is below the frame-count threshold derived
from `ignore_short_ms` is EXCLUDED from validity, while outlier runs at
least that long are KEPT valid.  In particular, for
cents_error = [10, 15, -5, 400, 12] with max_abs = 100 and ignore_short_ms
large enough to cover a 1-frame run, the 400 frame is excluded and
mean_abs_cents = mean(10, 15, 5, 12) = 10.5; with ignore_short_ms = 0 the
400 frame is likewise excluded with the same mean. -/
theorem C1_short_outlier_runs_excluded :
    (∀ (cents : List (Option ℚ)) (fd m ig : ℚ) (pre suf : List Bool) (k : ℕ),
      0 < m → 0 < ig → 0 < fd → 0 < k →
      cents.map (isOutlier m) = pre ++ (List.replicate k true ++ suf) →
      pre.getLast? ≠ some true → suf.head? ≠ some true →
      ((validMask cents fd (some m) (some ig)).drop pre.length).take k =
        (if k < thresholdFrames ig fd then List.replicate k false
         else List.replicate k true)) ∧
    (summarize_errors ([some 10, some 15, some (-5), some 400, some 12] :
        List (Option ℚ)) (1/100) (some 100) (some 1000)).mean_abs_cents =
      some (21/2) ∧
    (summarize_errors ([some 10, some 15, some (-5), some 400, some 12] :
        List (Option ℚ)) (1/100) (some 100) (some 0)).mean_abs_cents =
      some (21/2) := by
  refine ⟨?_, ?_, ?_⟩
  · intro cents fd m ig pre suf k hm hig hfd hk hdecomp hpre hsuf
    have hclen : cents.length = pre.length + k + suf.length := by
      have h1 := congrArg List.length hdecomp
      simp only [List.length_map, List.length_append, List.length_replicate] at h1
      omega
    have hlen0 : (cents.map fun c : Option ℚ => c.isSome).length =
        pre.length + k + suf.length := by
      simp only [List.length_map]
      exact hclen
    rw [validMask_ignore_short cents fd m ig hm hig hfd, hdecomp,
      invalidateShortRuns_maximal_run _ pre suf _ k hk hpre hsuf hlen0]
    by_cases hthr : k < thresholdFrames ig fd
    · rw [if_pos hthr, if_pos hthr]
    · rw [if_neg hthr, if_neg hthr]
      have houtl : ((cents.drop pre.length).take k).map (isOutlier m) =
          List.replicate k true := by
        have hsl : ((cents.map (isOutlier m)).drop pre.length).take k =
            List.replicate k true := by
          rw [hdecomp, List.drop_left, List.take_append_eq_append_take,
            List.length_replicate, Nat.sub_self, List.take_zero, List.append_nil,
            List.take_replicate, min_self]
        rw [← hsl, List.map_take, List.map_drop]
      have hmem : ∀ c ∈ (cents.drop pre.length).take k, isOutlier m c = true := by
        intro c hc
        have hmm : isOutlier m c ∈
            ((cents.drop pre.length).take k).map (isOutlier m) :=
          List.mem_map_of_mem _ hc
        rw [houtl] at hmm
        exact List.eq_of_mem_replicate hmm
      have hlen2 : ((cents.drop pre.length).take k).length = k := by
        rw [List.length_take, List.length_drop]
        omega
      rw [← List.map_drop, ← List.map_take]
      refine List.eq_replicate_iff.mpr ⟨by rw [List.length_map]; exact hlen2, ?_⟩
      intro b hb
      obtain ⟨c, hc, rfl⟩ := List.mem_map.mp hb
      have ho := hmem c hc
      cases c with
      | none => simp [isOutlier] at ho
      | some x => rfl
  · have hsel : selectValid
        ([some 10, some 15, some (-5), some 400, some 12] : List (Option ℚ))
        [true, true, true, false, true] = ([10, 15, -5, 12] : List ℚ) := by decide
    unfold summarize_errors
    rw [validMask_example_ignore, if_pos (by decide), hsel]
    unfold summaryOf npMean
    norm_num
  · have hsel : selectValid
        ([some 10, some 15, some (-5), some 400, some 12] : List (Option ℚ))
        [true, true, true, false, true] = ([10, 15, -5, 12] : List ℚ) := by decide
    unfold summarize_errors
    rw [validMask_example_zero, if_pos (by decide), hsel]
    unfold summaryOf npMean
    norm_num

/-- Witness for C1 (amended) at a concrete input: a 1-frame outlier run
below the threshold is excluded from validity. -/
theorem C1_witness :
    ((validMask ([some 400, some 10] : List (Option ℚ)) (1/100) (some 100)
        (some 1000)).drop 0).take 1 = List.replicate 1 false := by
  have h := C1_short_outlier_runs_excluded.1 [some 400, some 10] (1/100) 100 1000
    [] [false] 1 (by norm_num) (by norm_num) (by norm_num) (by norm_num)
    (by decide) (by decide) (by decide)
  simpa only [List.length_nil, thresholdFrames_eval,
    show (1 < 100) = True by simp, if_true] using h

/-! Step lemmas for the gating loop. -/

theorem jumpLoop_nil (g : ℝ) (prev : Option ℝ) (ks : List Bool) :
    jumpLoop g prev [] ks = [] := by
  cases ks <;> simp [jumpLoop]

theorem jumpLoop_cons_nil (g : ℝ) (prev : Option ℝ) (v : Option ℝ)
    (vs : List (Option ℝ)) : jumpLoop g prev (v :: vs) [] = [] := by
  simp [jumpLoop]

theorem jumpLoop_none_cons (g : ℝ) (prev : Option ℝ) (vs : List (Option ℝ))
    (k : Bool) (ks : List Bool) :
    jumpLoop g prev (none :: vs) (k :: ks) = false :: jumpLoop g prev vs ks := by
  simp [jumpLoop]

theorem jumpLoop_nonpos_cons (g : ℝ) (prev : Option ℝ) (x : ℝ) (hx : x ≤ 0)
    (vs : List (Option ℝ)) (k : Bool) (ks : List Bool) :
    jumpLoop g prev (some x :: vs) (k :: ks) = false :: jumpLoop g prev vs ks := by
  cases prev <;> simp [jumpLoop, hx]

theorem jumpLoop_first_cons (g : ℝ) (x : ℝ) (hx : 0 < x) (vs : List (Option ℝ))
    (k : Bool) (ks : List Bool) :
    jumpLoop g none (some x :: vs) (k :: ks) = k :: jumpLoop g (some x) vs ks := by
  simp [jumpLoop, not_le.mpr hx]

theorem jumpLoop_fail_cons (g : ℝ) (p x : ℝ) (hx : 0 < x)
    (hc : 0 < g ∧ g < |1200 * Real.logb 2 (x / p)|) (vs : List (Option ℝ))
    (k : Bool) (ks : List Bool) :
    jumpLoop g (some p) (some x :: vs) (k :: ks) =
      false :: jumpLoop g (some p) vs ks := by
  simp only [jumpLoop]
  rw [if_neg (not_le.mpr hx), if_pos hc]

theorem jumpLoop_pass_cons (g : ℝ) (p x : ℝ) (hx : 0 < x)
    (hc : ¬(0 < g ∧ g < |1200 * Real.logb 2 (x / p)|)) (vs : List (Option ℝ))
    (k : Bool) (ks : List Bool) :
    jumpLoop g (some p) (some x :: vs) (k :: ks) =
      k :: jumpLoop g (some x) vs ks := by
  simp only [jumpLoop]
  rw [if_neg (not_le.mpr hx), if_neg hc]

theorem jumpLoop_length (g : ℝ) :
    ∀ (f0 : List (Option ℝ)) (prev : Option ℝ) (ks : List Bool),
      (jumpLoop g prev f0 ks).length = min f0.length ks.length := by
  intro f0
  induction f0 with
  | nil => intro prev ks; rw [jumpLoop_nil]; simp
  | cons v vs ih =>
    intro prev ks
    cases ks with
    | nil => rw [jumpLoop_cons_nil]; simp
    | cons k kt =>
      have hstep : ∀ (q : Option ℝ) (b : Bool),
          (b :: jumpLoop g q vs kt).length = min (v :: vs).length (k :: kt).length := by
        intro q b
        simp [ih q kt, Nat.succ_min_succ]
      cases v with
      | none => rw [jumpLoop_none_cons]; exact hstep prev false
      | some x =>
        rcases le_or_lt x 0 with hx | hx
        · rw [jumpLoop_nonpos_cons g prev x hx]; exact hstep prev false
        · cases prev with
          | none => rw [jumpLoop_first_cons g x hx]; exact hstep (some x) k
          | some p =>
            by_cases hc : 0 < g ∧ g < |1200 * Real.logb 2 (x / p)|
            · rw [jumpLoop_fail_cons g p x hx hc]; exact hstep (some p) false
            · rw [jumpLoop_pass_cons g p x hx hc]; exact hstep (some x) k

theorem baseKeep_length (n : ℕ) (rms : Option (List ℝ)) (ratio : ℝ)
    (h : ∀ r, rms = some r → r.length = n) : (baseKeep n rms ratio).length = n := by
  cases rms with
  | none => simp [baseKeep]
  | some r =>
    simp only [baseKeep]
    by_cases hcond : 0 < ratio ∧ 0 < listMax r
    · rw [if_pos hcond, List.length_map]
      exact h r rfl
    · rw [if_neg hcond, List.length_replicate]

theorem npWhere_length {β : Type} (mask : List Bool) (xs : List (Option β)) :
    (npWhere mask xs).length = min mask.length xs.length := by
  simp [npWhere]

theorem npWhere_cons {β : Type} (b : Bool) (mask : List Bool) (v : Option β)
    (xs : List (Option β)) :
    npWhere (b :: mask) (v :: xs) = (if b then v else none) :: npWhere mask xs := rfl

/-- The jump loop distributes over the incoming RMS mask: its reference
tracking never looks at the mask bits. -/
theorem jumpLoop_and (g : ℝ) :
    ∀ (f0 : List (Option ℝ)) (prev : Option ℝ) (ks : List Bool),
      jumpLoop g prev f0 ks =
        List.zipWith (· && ·) ks (jumpLoop g prev f0 (List.replicate f0.length true)) := by
  intro f0
  induction f0 with
  | nil => intro prev ks; rw [jumpLoop_nil, jumpLoop_nil]; simp
  | cons v vs ih =>
    intro prev ks
    cases ks with
    | nil => rw [jumpLoop_cons_nil]; simp
    | cons k kt =>
      rw [List.length_cons, List.replicate_succ]
      cases v with
      | none =>
        rw [jumpLoop_none_cons, jumpLoop_none_cons, List.zipWith_cons_cons,
          Bool.and_false, ih prev kt]
      | some x =>
        rcases le_or_lt x 0 with hx | hx
        · rw [jumpLoop_nonpos_cons g prev x hx, jumpLoop_nonpos_cons g prev x hx,
            List.zipWith_cons_cons, Bool.and_false, ih prev kt]
        · cases prev with
          | none =>
            rw [jumpLoop_first_cons g x hx, jumpLoop_first_cons g x hx,
              List.zipWith_cons_cons, Bool.and_true, ih (some x) kt]
          | some p =>
            by_cases hc : 0 < g ∧ g < |1200 * Real.logb 2 (x / p)|
            · rw [jumpLoop_fail_cons g p x hx hc, jumpLoop_fail_cons g p x hx hc,
                List.zipWith_cons_cons, Bool.and_false, ih (some p) kt]
            · rw [jumpLoop_pass_cons g p x hx hc, jumpLoop_pass_cons g p x hx hc,
                List.zipWith_cons_cons, Bool.and_true, ih (some x) kt]

/-- With the jump gate disabled, the loop keeps exactly the voiced frames
within the incoming mask. -/
theorem jumpLoop_no_gate (g : ℝ) (hg : ¬ 0 < g) :
    ∀ (f0 : List (Option ℝ)) (prev : Option ℝ) (ks : List Bool),
      jumpLoop g prev f0 ks = List.zipWith (· && ·) (voicedMask f0) ks := by
  intro f0
  induction f0 with
  | nil => intro prev ks; rw [jumpLoop_nil]; simp [voicedMask]
  | cons v vs ih =>
    intro prev ks
    cases ks with
    | nil => rw [jumpLoop_cons_nil]; simp
    | cons k kt =>
      have hvm : voicedMask (v :: vs) =
          (match v with
            | some x => decide (0 < x)
            | none => false) :: voicedMask vs := by
        simp [voicedMask]
      rw [hvm]
      cases v with
      | none => rw [jumpLoop_none_cons, List.zipWith_cons_cons, ih prev kt]; rfl
      | some x =>
        rcases le_or_lt x 0 with hx | hx
        · rw [jumpLoop_nonpos_cons g prev x hx, List.zipWith_cons_cons, ih prev kt]
          simp [not_lt.mpr hx]
        · have hdx : decide (0 < x) = true := decide_eq_true hx
          cases prev with
          | none =>
            rw [jumpLoop_first_cons g x hx, List.zipWith_cons_cons, ih (some x) kt]
            simp [hx]
          | some p =>
            have hc : ¬(0 < g ∧ g < |1200 * Real.logb 2 (x / p)|) := by
              rintro ⟨h1, _⟩
              exact hg h1
            rw [jumpLoop_pass_cons g p x hx hc, List.zipWith_cons_cons, ih (some x) kt]
            simp [hx]

/-- Re-gating after nulling the dropped frames reproduces the jump mask, when
the incoming mask is all-true (no RMS gate). -/
theorem jumpLoop_regate (g : ℝ) :
    ∀ (f0 : List (Option ℝ)) (prev : Option ℝ),
      jumpLoop g prev (npWhere (jumpLoop g prev f0 (List.replicate f0.length true)) f0)
        (List.replicate
          (npWhere (jumpLoop g prev f0 (List.replicate f0.length true)) f0).length true)
      = jumpLoop g prev f0 (List.replicate f0.length true) := by
  intro f0
  induction f0 with
  | nil => intro prev; simp [jumpLoop_nil, npWhere]
  | cons v vs ih =>
    intro prev
    rw [List.length_cons, List.replicate_succ]
    cases v with
    | none =>
      rw [jumpLoop_none_cons, npWhere_cons, if_neg (by simp), List.length_cons,
        List.replicate_succ, jumpLoop_none_cons, ih prev]
    | some x =>
      rcases le_or_lt x 0 with hx | hx
      · rw [jumpLoop_nonpos_cons g prev x hx, npWhere_cons, if_neg (by simp),
          List.length_cons, List.replicate_succ, jumpLoop_none_cons, ih prev]
      · cases prev with
        | none =>
          rw [jumpLoop_first_cons g x hx, npWhere_cons, if_pos rfl, List.length_cons,
            List.replicate_succ, jumpLoop_first_cons g x hx, ih (some x)]
        | some p =>
          by_cases hc : 0 < g ∧ g < |1200 * Real.logb 2 (x / p)|
          · rw [jumpLoop_fail_cons g p x hx hc, npWhere_cons, if_neg (by simp),
              List.length_cons, List.replicate_succ, jumpLoop_none_cons, ih (some p)]
          · rw [jumpLoop_pass_cons g p x hx hc, npWhere_cons, if_pos rfl,
              List.length_cons, List.replicate_succ, jumpLoop_pass_cons g p x hx hc,
              ih (some x)]

/-- Re-gating with the jump gate disabled changes nothing (list form). -/
theorem regate_no_jump :
    ∀ (f0 : List (Option ℝ)) (base : List Bool),
      List.zipWith (· && ·)
        (voicedMask (npWhere (List.zipWith (· && ·) (voicedMask f0) base) f0)) base =
      List.zipWith (· && ·) (voicedMask f0) base := by
  intro f0
  induction f0 with
  | nil => intro base; simp [voicedMask, npWhere]
  | cons v vs ih =>
    intro base
    cases base with
    | nil => simp [voicedMask, npWhere]
    | cons b bs =>
      have hvm : ∀ (w : Option ℝ) (ws : List (Option ℝ)), voicedMask (w :: ws) =
          (match w with
            | some x => decide (0 < x)
            | none => false) :: voicedMask ws := by
        intro w ws
        simp [voicedMask]
      rw [hvm, List.zipWith_cons_cons, npWhere_cons, hvm, List.zipWith_cons_cons, ih bs]
      cases v with
      | none => simp
      | some x =>
        by_cases hx : 0 < x
        · simp only [decide_eq_true hx, Bool.true_and]
          cases b <;> simp [hx]
        · have hdx : decide (0 < x) = false := decide_eq_false hx
          simp [hdx]

theorem voicedMask_length (f0 : List (Option ℝ)) :
    (voicedMask f0).length = f0.length := by
  simp [voicedMask]

/-! Concrete evaluations shared by the counterexamples of C4 and C5. -/

theorem logb_two_two : Real.logb 2 2 = 1 := Real.logb_self_eq_one (by norm_num)

theorem logb_two_four : Real.logb 2 4 = 2 := by
  rw [show (4:ℝ) = 2 ^ (2:ℕ) by norm_num, Real.logb_pow, logb_two_two]
  norm_num

theorem listMax_eval : listMax [(1:ℝ), 1/100, 1] = 1 := by
  simp only [listMax, List.foldl_cons, List.foldl_nil]
  rw [max_eq_left (by norm_num : (1:ℝ)/100 ≤ 1), max_self]

theorem baseKeep_eval : baseKeep 3 (some [(1:ℝ), 1/100, 1]) (1/50) = [true, false, true] := by
  simp only [baseKeep, listMax_eval]
  rw [if_pos ⟨by norm_num, by norm_num⟩]
  simp only [List.map_cons, List.map_nil, List.cons.injEq, and_true,
    decide_eq_true_eq, decide_eq_false_iff_not]
  norm_num

theorem jump_small_cond (p x : ℝ) (h2 : x / p = 2) :
    ¬((0:ℝ) < 1800 ∧ (1800:ℝ) < |1200 * Real.logb 2 (x / p)|) := by
  rw [h2, logb_two_two, mul_one, abs_of_pos (by norm_num : (0:ℝ) < 1200)]
  norm_num

theorem jump_large_cond (p x : ℝ) (h4 : x / p = 4) :
    (0:ℝ) < 1800 ∧ (1800:ℝ) < |1200 * Real.logb 2 (x / p)| := by
  refine ⟨by norm_num, ?_⟩
  rw [h4, logb_two_four, abs_of_pos (by norm_num : (0:ℝ) < 1200 * 2)]
  norm_num

theorem gateA_eval :
    gate_frames [some 100, some 200, some 400] (some [1, 1/100, 1]) (1/50) 1800 =
      [true, false, true] := by
  unfold gate_frames
  rw [show ([some (100:ℝ), some 200, some 400]).length = 3 from rfl, baseKeep_eval,
    jumpLoop_first_cons 1800 100 (by norm_num),
    jumpLoop_pass_cons 1800 100 200 (by norm_num) (jump_small_cond 100 200 (by norm_num)),
    jumpLoop_pass_cons 1800 200 400 (by norm_num) (jump_small_cond 200 400 (by norm_num)),
    jumpLoop_nil]

theorem gateA_regate_eval :
    gate_frames [some 100, none, some 400] (some [1, 1/100, 1]) (1/50) 1800 =
      [true, false, false] := by
  unfold gate_frames
  rw [show ([some (100:ℝ), none, some 400]).length = 3 from rfl, baseKeep_eval,
    jumpLoop_first_cons 1800 100 (by norm_num),
    jumpLoop_none_cons,
    jumpLoop_fail_cons 1800 100 400 (by norm_num) (jump_large_cond 100 400 (by norm_num)),
    jumpLoop_nil]

theorem jumpLoopSpec_nil (g : ℝ) (prev : Option ℝ) (ks : List Bool) :
    jumpLoopSpecC4 g prev [] ks = [] := by
  cases ks <;> simp [jumpLoopSpecC4]

theorem jumpLoopSpec_first_cons (g : ℝ) (x : ℝ) (hx : 0 < x) (vs : List (Option ℝ))
    (k : Bool) (ks : List Bool) :
    jumpLoopSpecC4 g none (some x :: vs) (k :: ks) =
      k :: jumpLoopSpecC4 g (if k then some x else none) vs ks := by
  simp [jumpLoopSpecC4, not_le.mpr hx]

theorem jumpLoopSpec_pass_cons (g : ℝ) (p x : ℝ) (hx : 0 < x)
    (hc : ¬(0 < g ∧ g < |1200 * Real.logb 2 (x / p)|)) (vs : List (Option ℝ))
    (k : Bool) (ks : List Bool) :
    jumpLoopSpecC4 g (some p) (some x :: vs) (k :: ks) =
      k :: jumpLoopSpecC4 g (if k then some x else some p) vs ks := by
  simp only [jumpLoopSpecC4]
  rw [if_neg (not_le.mpr hx), if_neg hc]

theorem jumpLoopSpec_fail_cons (g : ℝ) (p x : ℝ) (hx : 0 < x)
    (hc : 0 < g ∧ g < |1200 * Real.logb 2 (x / p)|) (vs : List (Option ℝ))
    (k : Bool) (ks : List Bool) :
    jumpLoopSpecC4 g (some p) (some x :: vs) (k :: ks) =
      false :: jumpLoopSpecC4 g (some p) vs ks := by
  simp only [jumpLoopSpecC4]
  rw [if_neg (not_le.mpr hx), if_pos hc]

theorem gateA_spec_eval :
    gate_frames_specC4 [some 100, some 200, some 400] (some [1, 1/100, 1]) (1/50) 1800 =
      [true, false, false] := by
  unfold gate_frames_specC4
  rw [show ([some (100:ℝ), some 200, some 400]).length = 3 from rfl, baseKeep_eval,
    jumpLoopSpec_first_cons 1800 100 (by norm_num)]
  simp only [if_true]
  rw [jumpLoopSpec_pass_cons 1800 100 200 (by norm_num)
    (jump_small_cond 100 200 (by norm_num))]
  simp only [Bool.false_eq_true, if_false]
  rw [jumpLoopSpec_fail_cons 1800 100 400 (by norm_num)
    (jump_large_cond 100 400 (by norm_num)), jumpLoopSpec_nil]

/-- Claim C4 (amended): the mask returned by `gate_frames` is the pointwise
conjunction of the RMS mask with a jump/voicing mask computed from the f0
contour alone; consequently the reference used by the cents-jump test at a
frame is the most recent earlier voiced frame that itself passed the jump
test — frames dropped only by the RMS gate still update that reference. -/
theorem C4_reference_ignores_rms_gate (f0 : List (Option ℝ)) (rms : Option (List ℝ))
    (ratio g : ℝ) :
    gate_frames f0 rms ratio g =
      List.zipWith (· && ·) (baseKeep f0.length rms ratio)
        (jumpLoop g none f0 (List.replicate f0.length true)) :=
  jumpLoop_and g f0 none (baseKeep f0.length rms ratio)

/-- Claim C4 as stated is false: on f0 = [100, 200, 400] Hz with the middle
frame dropped by the RMS gate and jump gate 1800 cents, `gate_frames` keeps
the third frame (the dropped 200 Hz frame became the reference), while the
claimed last-KEPT-reference behaviour would drop it (jump from 100 Hz is
2400 cents). -/
theorem C4_counterexample :
    gate_frames [some 100, some 200, some 400] (some [1, 1/100, 1]) (1/50) 1800 =
      [true, false, true] ∧
    gate_frames_specC4 [some 100, some 200, some 400] (some [1, 1/100, 1]) (1/50) 1800 =
      [true, false, false] ∧
    ([true, false, true] : List Bool) ≠ [true, false, false] :=
  ⟨gateA_eval, gateA_spec_eval, by decide⟩

/-- Claim C5 as stated is false: re-gating the same contour after nulling the
non-kept frames drops an additional frame when the RMS gate and the jump gate
are both active. -/
theorem C5_counterexample :
    gate_frames (npWhere (gate_frames [some 100, some 200, some 400]
        (some [1, 1/100, 1]) (1/50) 1800) [some 100, some 200, some 400])
      (some [1, 1/100, 1]) (1/50) 1800 ≠
    gate_frames [some 100, some 200, some 400] (some [1, 1/100, 1]) (1/50) 1800 := by
  rw [gateA_eval,
    show npWhere [true, false, true] [some (100:ℝ), some 200, some 400] =
      [some 100, none, some 400] from rfl,
    gateA_regate_eval]
  decide

/-- Claim C5 (amended): gating is idempotent whenever at most one gate is
active — if the RMS gate is disabled (`rms = None` or ratio ≤ 0) or the
jump gate is disabled (threshold ≤ 0), then re-applying `gate_frames` with
the same parameters to the contour with non-kept frames set to NaN keeps
exactly the same frames.  (With both gates active this can fail, see the
counterexample.) -/
theorem C5_gate_idempotent_when_single_gate :
    ∀ (f0 : List (Option ℝ)) (rms : Option (List ℝ)) (ratio g : ℝ),
      (∀ r, rms = some r → r.length = f0.length) →
      ((rms = none ∨ ratio ≤ 0) ∨ g ≤ 0) →
      gate_frames (npWhere (gate_frames f0 rms ratio g) f0) rms ratio g =
        gate_frames f0 rms ratio g := by
  intro f0 rms ratio g hlen hdis
  rcases hdis with hrms | hg
  · have hbase : ∀ m : ℕ, baseKeep m rms ratio = List.replicate m true := by
      intro m
      rcases hrms with h0 | h0
      · rw [h0]; rfl
      · cases rms with
        | none => rfl
        | some r =>
          simp only [baseKeep]
          rw [if_neg]
          rintro ⟨h1, _⟩
          exact absurd h1 (not_lt.mpr h0)
    unfold gate_frames
    simp only [hbase]
    exact jumpLoop_regate g f0 none
  · have hg' : ¬ 0 < g := not_lt.mpr hg
    unfold gate_frames
    simp only [jumpLoop_no_gate g hg']
    have hlen2 : (npWhere (List.zipWith (· && ·) (voicedMask f0)
        (baseKeep f0.length rms ratio)) f0).length = f0.length := by
      rw [npWhere_length, List.length_zipWith, voicedMask_length,
        baseKeep_length f0.length rms ratio hlen, min_self, min_self]
    rw [hlen2]
    exact regate_no_jump f0 (baseKeep f0.length rms ratio)

/-- Witness for C5 (amended) at a concrete input with both gates disabled. -/
theorem C5_witness :
    gate_frames (npWhere (gate_frames [some 100, none] none 0 0) [some 100, none])
      none 0 0 = gate_frames [some 100, none] none 0 0 :=
  C5_gate_idempotent_when_single_gate [some 100, none] none 0 0
    (fun r h => absurd h (by simp)) (Or.inl (Or.inl rfl))

/-! The offset search of the Reference Aligner. -/

theorem mem_rangeZ (a b k : ℤ) : k ∈ rangeZ a b ↔ a ≤ k ∧ k ≤ b := by
  unfold rangeZ
  constructor
  · intro h
    obtain ⟨i, hi, hik⟩ := List.mem_map.mp h
    rw [List.mem_range] at hi
    constructor <;> omega
  · rintro ⟨h1, h2⟩
    exact List.mem_map.mpr ⟨(k - a).toNat, List.mem_range.mpr (by omega), by omega⟩

theorem npRound_intCast (n : ℤ) : npRound ((n:ℝ)) = n := by
  unfold npRound
  rw [Int.fract_intCast, if_pos (by norm_num), Int.floor_intCast]

/-- Claim C2 (amended): the candidate offsets evaluated by the Reference
Aligner are exactly the integers of `[-bound, bound]` when the bound is
positive and `penalize_late` is NOT set, and the single offset 0 in every
other case — in particular, with `penalize_late` set only offset 0 is ever
evaluated (not the range `[0, bound]`), and with `max_delay_ms = 0` the
bound is 0 and only offset 0 is evaluated.  The bound is
`round(max_delay_ms/1000/frame_duration)` clamped to each contour's length
minus one. -/
theorem C2_offsets_characterisation (mdms fd : ℝ) (nv nr : ℕ) (late : Bool)
    (k : ℤ) :
    k ∈ offsets_to_try mdms fd nv nr late ↔
      (k = 0 ∨ (late = false ∧ 0 < max_offset_frames mdms fd nv nr ∧
        -(max_offset_frames mdms fd nv nr) ≤ k ∧
        k ≤ max_offset_frames mdms fd nv nr)) := by
  unfold offsets_to_try
  by_cases h : 0 < max_offset_frames mdms fd nv nr ∧ late = false
  · rw [if_pos h, mem_rangeZ]
    constructor
    · rintro ⟨h1, h2⟩
      exact Or.inr ⟨h.2, h.1, h1, h2⟩
    · rintro (rfl | ⟨_, _, h1, h2⟩)
      · have hb := h.1
        omega
      · exact ⟨h1, h2⟩
  · rw [if_neg h]
    simp only [List.mem_singleton]
    constructor
    · intro h0
      exact Or.inl h0
    · rintro (rfl | ⟨hl, hb, _, _⟩)
      · rfl
      · exact absurd ⟨hb, hl⟩ h

/-- Claim C2 as stated is false: with a positive bound (here 2 frames) and
`penalize_late` set, `compute_similarity` evaluates only offset 0, not
every offset in `[0, bound]`. -/
theorem C2_counterexample :
    max_offset_frames 20 (1/100) 10 10 = 2 ∧
    offsets_to_try 20 (1/100) 10 10 true = [0] ∧
    (1:ℤ) ∉ offsets_to_try 20 (1/100) 10 10 true := by
  have hmof : max_offset_frames 20 (1/100) 10 10 = 2 := by
    unfold max_offset_frames
    rw [if_pos (by norm_num : (0:ℝ) < 20),
      show (20:ℝ)/1000/(1/100) = ((2:ℤ):ℝ) by norm_num, npRound_intCast]
    decide
  have hoff : offsets_to_try 20 (1/100) 10 10 true = [0] := by
    unfold offsets_to_try
    rw [hmof, if_neg (by simp)]
  refine ⟨hmof, hoff, ?_⟩
  rw [hoff]
  decide

/-! The best-offset selection fold. -/

theorem selStep_score_le (build : ℤ → Summary ℝ × List FrameOut) (s : BestState)
    (off : ℤ) : (selStep build s off).best_score ≤ s.best_score := by
  unfold selStep
  by_cases h : scoreOf (build off).1 < s.best_score
  · rw [if_pos h]
    exact le_of_lt h
  · rw [if_neg h]

theorem selStep_score_le_off (build : ℤ → Summary ℝ × List FrameOut)
    (s : BestState) (off : ℤ) :
    (selStep build s off).best_score ≤ scoreOf (build off).1 := by
  unfold selStep
  by_cases h : scoreOf (build off).1 < s.best_score
  · rw [if_pos h]
  · rw [if_neg h]
    exact not_lt.mp h

theorem foldl_selStep_score_le (build : ℤ → Summary ℝ × List FrameOut) :
    ∀ (L : List ℤ) (s : BestState),
      ((L.foldl (selStep build) s).best_score) ≤ s.best_score := by
  intro L
  induction L with
  | nil => intro s; exact le_rfl
  | cons x xs ih =>
    intro s
    rw [List.foldl_cons]
    exact le_trans (ih (selStep build s x)) (selStep_score_le build s x)

theorem foldl_selStep_min (build : ℤ → Summary ℝ × List FrameOut) :
    ∀ (L : List ℤ) (s : BestState) (off : ℤ), off ∈ L →
      ((L.foldl (selStep build) s).best_score) ≤ scoreOf (build off).1 := by
  intro L
  induction L with
  | nil => intro s off h; cases h
  | cons x xs ih =>
    intro s off h
    rw [List.foldl_cons]
    rcases List.mem_cons.mp h with rfl | hmem
    · exact le_trans (foldl_selStep_score_le build xs _) (selStep_score_le_off build s off)
    · exact ih _ off hmem

theorem foldl_selStep_coherent (build : ℤ → Summary ℝ × List FrameOut) :
    ∀ (L : List ℤ) (s : BestState),
      scoreOf (s.best_summary.getD allNullSummary) = s.best_score →
      scoreOf ((L.foldl (selStep build) s).best_summary.getD allNullSummary) =
        (L.foldl (selStep build) s).best_score := by
  intro L
  induction L with
  | nil => intro s hs; exact hs
  | cons x xs ih =>
    intro s hs
    rw [List.foldl_cons]
    apply ih
    unfold selStep
    by_cases h : scoreOf (build x).1 < s.best_score
    · rw [if_pos h]
      rfl
    · rw [if_neg h]
      exact hs

theorem zero_mem_offsets (mdms fd : ℝ) (nv nr : ℕ) (late : Bool) :
    (0:ℤ) ∈ offsets_to_try mdms fd nv nr late := by
  unfold offsets_to_try
  by_cases h : 0 < max_offset_frames mdms fd nv nr ∧ late = false
  · rw [if_pos h, mem_rangeZ]
    have hb := h.1
    omega
  · rw [if_neg h]
    simp

/-- Claim C7: the chosen offset's summary is at least as good as the
zero-offset summary — its mean_abs_cents (⊤ when null, i.e. no valid
frames) is ≤ the mean_abs_cents obtained at offset 0. -/
theorem C7_chosen_not_worse_than_zero (vocal_f0_raw : List (Option ℝ))
    (vocal_rms : List ℝ) (vocal_times : List ℝ) (ref_f0 : List (Option ℝ))
    (ref_times : List ℝ) (hop sr ratio jump smax ig mdms : ℝ) (late : Bool) :
    scoreOf (compute_similarity vocal_f0_raw vocal_rms vocal_times ref_f0
      ref_times hop sr ratio jump smax ig mdms late).summary ≤
    scoreOf (build_for_offset
      (npWhere (gate_frames vocal_f0_raw (some vocal_rms) ratio jump) vocal_f0_raw)
      ref_f0 vocal_times ref_times (hop / sr) smax ig 0).1 := by
  have h1 := foldl_selStep_coherent
    (build_for_offset
      (npWhere (gate_frames vocal_f0_raw (some vocal_rms) ratio jump) vocal_f0_raw)
      ref_f0 vocal_times ref_times (hop / sr) smax ig)
    (offsets_to_try mdms (hop / sr) vocal_times.length ref_times.length late)
    ⟨none, none, 0, ⊤⟩ rfl
  have h2 := foldl_selStep_min
    (build_for_offset
      (npWhere (gate_frames vocal_f0_raw (some vocal_rms) ratio jump) vocal_f0_raw)
      ref_f0 vocal_times ref_times (hop / sr) smax ig)
    (offsets_to_try mdms (hop / sr) vocal_times.length ref_times.length late)
    ⟨none, none, 0, ⊤⟩ 0
    (zero_mem_offsets mdms (hop / sr) vocal_times.length ref_times.length late)
  exact le_trans (le_of_eq h1) h2

theorem validMask_nil (fd : α) (ma ig : Option α) :
    validMask ([] : List (Option α)) fd ma ig = [] := by
  cases ma with
  | none => simp [validMask]
  | some m =>
    cases ig with
    | none =>
      simp only [validMask, List.map_nil]
      by_cases hm : 0 < m
      · rw [if_pos hm]
      · rw [if_neg hm]
    | some g =>
      simp only [validMask, List.map_nil]
      by_cases hm : 0 < m
      · rw [if_pos hm]
        by_cases hg : 0 < g ∧ 0 < fd
        · rw [if_pos hg]
          exact invalidateShortRuns_nil _ []
        · rw [if_neg hg]
      · rw [if_neg hm]

theorem summarize_errors_nil (fd : α) (ma ig : Option α) :
    summarize_errors ([] : List (Option α)) fd ma ig = allNullSummary := by
  unfold summarize_errors
  rw [validMask_nil, if_neg (by simp)]

theorem selStep_top (build : ℤ → Summary ℝ × List FrameOut) (s : BestState)
    (off : ℤ) (h : scoreOf (build off).1 = ⊤) : selStep build s off = s := by
  unfold selStep
  rw [h, if_neg not_top_lt]

theorem foldl_selStep_const (build : ℤ → Summary ℝ × List FrameOut) :
    ∀ (L : List ℤ) (s : BestState), (∀ off ∈ L, scoreOf (build off).1 = ⊤) →
      L.foldl (selStep build) s = s := by
  intro L
  induction L with
  | nil => intro s _; rfl
  | cons x xs ih =>
    intro s h
    rw [List.foldl_cons, selStep_top build s x (h x (by simp))]
    exact ih s fun off hoff => h off (by simp [hoff])

/-- Claim C10: when every candidate offset yields a summary with no valid
frames (a null mean_abs_cents), compute_similarity still returns normally:
the all-null summary (valid_frames = 0), an empty frames list (whose
cents_error entries are therefore all null), chosen offset 0 frames and
offset_ms = 0.0 — distinguishable from a score of zero. -/
theorem C10_no_signal_result (vocal_f0_raw : List (Option ℝ))
    (vocal_rms : List ℝ) (vocal_times : List ℝ) (ref_f0 : List (Option ℝ))
    (ref_times : List ℝ) (hop sr ratio jump smax ig mdms : ℝ) (late : Bool)
    (h : ∀ off ∈ offsets_to_try mdms (hop / sr) vocal_times.length
        ref_times.length late,
      (build_for_offset
        (npWhere (gate_frames vocal_f0_raw (some vocal_rms) ratio jump) vocal_f0_raw)
        ref_f0 vocal_times ref_times (hop / sr) smax ig off).1.mean_abs_cents =
        none) :
    compute_similarity vocal_f0_raw vocal_rms vocal_times ref_f0 ref_times hop sr
      ratio jump smax ig mdms late =
      ⟨allNullSummary, [], 0, 0⟩ := by
  have hconst := foldl_selStep_const
    (build_for_offset
      (npWhere (gate_frames vocal_f0_raw (some vocal_rms) ratio jump) vocal_f0_raw)
      ref_f0 vocal_times ref_times (hop / sr) smax ig)
    (offsets_to_try mdms (hop / sr) vocal_times.length ref_times.length late)
    ⟨none, none, 0, ⊤⟩
    (fun off hoff => by simp [scoreOf, h off hoff])
  simp only [compute_similarity]
  rw [hconst]
  simp

/-- Witness for C10 at a concrete no-signal input (empty contours). -/
theorem C10_witness :
    compute_similarity ([] : List (Option ℝ)) [] [] [] [] 256 44100 0 0 0 0 0 false =
      ⟨allNullSummary, [], 0, 0⟩ := by
  apply C10_no_signal_result
  intro off _hoff
  have h1 : npWhere (gate_frames [] (some []) 0 0) ([] : List (Option ℝ)) = [] := by
    simp [npWhere]
  have happ : apply_offset (npWhere (gate_frames [] (some []) 0 0) []) [] [] [] off =
      ([], [], [], []) := by
    unfold apply_offset
    rw [h1]
    split_ifs <;> simp
  unfold build_for_offset
  rw [happ]
  show (summarize_errors ([] : List (Option ℝ)) (256 / 44100)
      (if 0 < (0:ℝ) then some 0 else none) (some 0)).mean_abs_cents = none
  rw [summarize_errors_nil]
  rfl

/-! The voicing+gap+jump segmenter partitions the voiced frames. -/

theorem maskFilter_cons {β : Type} (x : β) (xs : List β) (b : Bool) (bs : List Bool) :
    maskFilter (x :: xs) (b :: bs) = (if b then [x] else []) ++ maskFilter xs bs := by
  cases b <;> simp [maskFilter]

theorem maskFilter_length_congr {β γ : Type} :
    ∀ (mask : List Bool) (xs : List β) (ys : List γ), xs.length = ys.length →
      (maskFilter xs mask).length = (maskFilter ys mask).length := by
  intro mask
  induction mask with
  | nil => intro xs ys _; simp [maskFilter]
  | cons b bs ih =>
    intro xs ys h
    cases xs with
    | nil =>
      cases ys with
      | nil => rfl
      | cons y yt => simp at h
    | cons x xt =>
      cases ys with
      | nil => simp at h
      | cons y yt =>
        have h' : xt.length = yt.length := by simpa using h
        rw [maskFilter_cons, maskFilter_cons, List.length_append, List.length_append,
          ih xt yt h']
        cases b <;> simp

theorem segVoicingGo_flatten (vt vf : List ℝ) (gap jump : ℝ) :
    ∀ (fuel i start : ℕ), i + fuel = vf.length → 1 ≤ i → start < i →
      ((segVoicingGo vt vf gap jump vf.length fuel i start).map
        (fun se => (vf.drop se.1).take (se.2 + 1 - se.1))).flatten =
      (vf.drop start).take (vf.length - start) := by
  intro fuel
  induction fuel with
  | zero =>
    intro i start hi h1 hs
    simp only [segVoicingGo, List.map_cons, List.map_nil, List.flatten_cons,
      List.flatten_nil, List.append_nil]
    rw [show vf.length - 1 + 1 - start = vf.length - start by omega]
  | succ f ih =>
    intro i start hi h1 hs
    by_cases hnew : gap < vt.getD i 0 - vt.getD (i - 1) 0 ∨
        jump < |1200 * Real.logb 2 (vf.getD i 0 / vf.getD (i - 1) 0)|
    · rw [show segVoicingGo vt vf gap jump vf.length (f + 1) i start =
          (start, i - 1) :: segVoicingGo vt vf gap jump vf.length f (i + 1) i from by
        simp only [segVoicingGo]
        rw [if_pos hnew]]
      rw [List.map_cons, List.flatten_cons, ih (i + 1) i (by omega) (by omega) (by omega)]
      simp only
      rw [show i - 1 + 1 - start = i - start by omega,
        show vf.length - start = (i - start) + (vf.length - i) by omega,
        List.take_add]
      congr 1
      rw [List.drop_drop, show start + (i - start) = i by omega]
    · rw [show segVoicingGo vt vf gap jump vf.length (f + 1) i start =
          segVoicingGo vt vf gap jump vf.length f (i + 1) start from by
        simp only [segVoicingGo]
        rw [if_neg hnew]]
      exact ih (i + 1) start (by omega) (by omega) (by omega)

/-- Claim C6: the voicing+gap+jump segmenter partitions the voiced frames —
concatenating the member-frame slices of all returned note boundaries, in
order, reconstructs exactly the sequence of voiced input frames: no frame
in two notes, none dropped. -/
theorem C6_voicing_partition (times f0 : List ℝ) (voiced : List Bool)
    (gap jump : ℝ) (hlt : times.length = f0.length) :
    (((segment_notes_by_voicing times f0 voiced gap jump).2.2).map
      (fun se => ((maskFilter f0 voiced).drop se.1).take (se.2 + 1 - se.1))).flatten =
      maskFilter f0 voiced := by
  have hlen : (maskFilter times voiced).length = (maskFilter f0 voiced).length :=
    maskFilter_length_congr voiced times f0 (by omega)
  simp only [segment_notes_by_voicing]
  by_cases hz : (maskFilter times voiced).length = 0
  · rw [if_pos hz]
    have : maskFilter f0 voiced = [] := List.length_eq_zero.mp (by omega)
    rw [this]
    rfl
  · rw [if_neg hz]
    show ((segVoicingGo (maskFilter times voiced) (maskFilter f0 voiced) gap jump
        (maskFilter times voiced).length ((maskFilter times voiced).length - 1) 1
        0).map
      (fun se => ((maskFilter f0 voiced).drop se.1).take (se.2 + 1 - se.1))).flatten =
      maskFilter f0 voiced
    rw [hlen, segVoicingGo_flatten (maskFilter times voiced) (maskFilter f0 voiced)
      gap jump ((maskFilter f0 voiced).length - 1) 1 0 (by omega) le_rfl (by omega),
      List.drop_zero, Nat.sub_zero, List.take_length]

/-- Witness for C6 at a concrete one-voiced-frame input. -/
theorem C6_witness :
    (((segment_notes_by_voicing [0] [220] [true] 1 80).2.2).map
      (fun se => ((maskFilter [(220:ℝ)] [true]).drop se.1).take (se.2 + 1 - se.1))).flatten =
      maskFilter [(220:ℝ)] [true] ∧
    maskFilter [(220:ℝ)] [true] = [220] :=
  ⟨C6_voicing_partition [0] [220] [true] 1 80 rfl, rfl⟩

/-! Note fields of the two segmentation strategies (claim C3). -/

theorem insertionSort_map_mono (f : ℝ → ℝ) (xs : List ℝ)
    (hmono : ∀ a ∈ xs, ∀ b ∈ xs, a ≤ b → f a ≤ f b) :
    (xs.map f).insertionSort (· ≤ ·) = (xs.insertionSort (· ≤ ·)).map f := by
  have hp : List.Perm ((xs.map f).insertionSort (· ≤ ·))
      ((xs.insertionSort (· ≤ ·)).map f) :=
    (List.perm_insertionSort _ _).trans
      (((List.perm_insertionSort (· ≤ ·) xs).symm).map f)
  have hs1 : List.Sorted (· ≤ ·) ((xs.map f).insertionSort (· ≤ ·)) :=
    List.sorted_insertionSort _ _
  have hs2 : List.Sorted (· ≤ ·) ((xs.insertionSort (· ≤ ·)).map f) := by
    unfold List.Sorted
    rw [List.pairwise_map]
    apply List.Pairwise.imp_of_mem ?_
      (List.sorted_insertionSort (· ≤ ·) xs : List.Sorted (· ≤ ·) _)
    intro a b ha hb hab
    exact hmono a ((List.perm_insertionSort (· ≤ ·) xs).subset ha)
      b ((List.perm_insertionSort (· ≤ ·) xs).subset hb) hab
  exact List.eq_of_perm_of_sorted hp hs1 hs2

theorem npMedian_map_mono (f : ℝ → ℝ) (xs : List ℝ) (hodd : xs.length % 2 = 1)
    (hmono : ∀ a ∈ xs, ∀ b ∈ xs, a ≤ b → f a ≤ f b) :
    npMedian (xs.map f) = f (npMedian xs) := by
  unfold npMedian
  rw [List.length_map, if_pos hodd, if_pos hodd, insertionSort_map_mono f xs hmono]
  have hlt : xs.length / 2 < (xs.insertionSort (· ≤ ·)).length := by
    rw [List.length_insertionSort]
    omega
  rw [List.getD_eq_getElem?_getD, List.getD_eq_getElem?_getD, List.getElem?_map,
    List.getElem?_eq_getElem hlt]
  simp

theorem hz_to_midi_mono {a b : ℝ} (ha : 0 < a) (hab : a ≤ b) :
    hz_to_midi a ≤ hz_to_midi b := by
  unfold hz_to_midi
  have h := Real.logb_le_logb_of_le (by norm_num : (1:ℝ) < 2) ha hab
  linarith

/-- Claim C3 (amended): in the quantized-pitch-run strategy
(`segment_notes.flush`), each emitted note has `measured_hz` = MEDIAN of its
member frequencies, `target_hz` derived by rounding the MEDIAN MIDI value of
the members (for an odd-length run of positive frequencies this equals the
equal-tempered frequency nearest `measured_hz`), and
`cents_error = 1200*log2(measured/target)` (0 when either is non-positive);
in the voicing+gap+jump strategy (`analyze_take`), each emitted note has
`measured_hz` = MEAN (not median) of its member frequencies,
`target_hz` = the equal-tempered frequency nearest that mean, and
`cents_error = 1200*log2(measured/target)`. -/
theorem C3_note_fields :
    (∀ (min_len : ℕ) (current : List (ℕ × ℝ × ℝ)) (note : NoteQ),
      flushNote min_len current = some note →
      note.measured_hz = npMedian (current.map fun c => c.2.2) ∧
      note.target_hz =
        midi_to_hz (npRound (npMedian ((current.map fun c => c.2.2).map hz_to_midi))) ∧
      note.cents_error =
        (if 0 < note.measured_hz ∧ 0 < note.target_hz then
          1200 * Real.logb 2 (note.measured_hz / note.target_hz) else 0) ∧
      ((current.map fun c => c.2.2).length % 2 = 1 →
        (∀ x ∈ current.map fun c => c.2.2, 0 < x) →
        note.target_hz = midi_to_hz (npRound (hz_to_midi note.measured_hz)))) ∧
    (∀ (idx : ℕ) (nts nfs : List ℝ) (note : NoteV),
      buildVoicingNote idx nts nfs = some note →
      note.measured_hz = npMean nfs ∧
      note.target_hz = midi_to_hz (npRound (hz_to_midi (npMean nfs))) ∧
      note.cents_error = 1200 * Real.logb 2 (note.measured_hz / note.target_hz)) := by
  constructor
  · intro min_len current note h
    unfold flushNote at h
    by_cases hc : current.length < min_len ∨ current.length = 0
    · rw [if_pos hc] at h
      exact absurd h (by simp)
    · rw [if_neg hc] at h
      have hn := Option.some_inj.mp h
      refine ⟨by rw [← hn], by rw [← hn], by rw [← hn], ?_⟩
      intro hodd hpos
      rw [← hn]
      show midi_to_hz (npRound (npMedian ((current.map fun c => c.2.2).map hz_to_midi))) =
        midi_to_hz (npRound (hz_to_midi (npMedian (current.map fun c => c.2.2))))
      rw [npMedian_map_mono hz_to_midi _ hodd
        (fun a ha b _ hab => hz_to_midi_mono (hpos a ha) hab)]
  · intro idx nts nfs note h
    unfold buildVoicingNote at h
    by_cases hc : nfs.length = 0
    · rw [if_pos hc] at h
      exact absurd h (by simp)
    · rw [if_neg hc] at h
      have hn := Option.some_inj.mp h
      exact ⟨by rw [← hn], by rw [← hn], by rw [← hn]⟩

/-- Claim C3 as stated is false: in the voicing strategy (`analyze_take`),
a note over member frequencies [100, 100, 400] has `measured_hz = 200`
(the mean), not the median 100. -/
theorem C3_counterexample :
    ((buildVoicingNote 0 [0, 1, 2] [100, 100, 400]).map fun n => n.measured_hz) =
      some 200 ∧
    npMedian [(100:ℝ), 100, 400] = 100 ∧
    (200:ℝ) ≠ 100 := by
  refine ⟨?_, ?_, by norm_num⟩
  · unfold buildVoicingNote
    rw [if_neg (by norm_num)]
    show some (npMean [(100:ℝ), 100, 400]) = some 200
    norm_num [npMean]
  · have h2 : List.orderedInsert (· ≤ ·) (100:ℝ) [400] = [100, 400] := by
      simp only [List.orderedInsert]
      rw [if_pos (by norm_num : (100:ℝ) ≤ 400)]
    have h3 : List.orderedInsert (· ≤ ·) (100:ℝ) [100, 400] = [100, 100, 400] := by
      simp only [List.orderedInsert]
      rw [if_pos (by norm_num : (100:ℝ) ≤ 100)]
    have hsort : List.insertionSort (· ≤ ·) [(100:ℝ), 100, 400] = [100, 100, 400] := by
      simp only [List.insertionSort]
      rw [show List.orderedInsert (· ≤ ·) (400:ℝ) [] = [400] from rfl, h2, h3]
    simp only [npMedian]
    rw [hsort]
    norm_num

/-- Witness for C3 (amended) at concrete one-frame notes. -/
theorem C3_witness :
    ((flushNote 1 [(0, 0, 440)]).map fun n => n.measured_hz) =
      some (npMedian [440]) ∧
    ((buildVoicingNote 0 [0] [440]).map fun n => n.measured_hz) =
      some (npMean [440]) ∧
    npMedian [(440:ℝ)] = 440 ∧ npMean [(440:ℝ)] = 440 := by
  refine ⟨?_, ?_, ?_, by norm_num [npMean]⟩
  · rcases hflush : flushNote 1 [((0:ℕ), (0:ℝ), (440:ℝ))] with _ | note
    · unfold flushNote at hflush
      rw [if_neg (by norm_num)] at hflush
      exact absurd hflush (by simp)
    · have h := (C3_note_fields.1 1 [((0:ℕ), (0:ℝ), (440:ℝ))] note hflush).1
      exact congrArg some h
  · rcases hb : buildVoicingNote 0 [(0:ℝ)] [(440:ℝ)] with _ | note
    · unfold buildVoicingNote at hb
      rw [if_neg (by norm_num)] at hb
      exact absurd hb (by simp)
    · have h := (C3_note_fields.2 0 [(0:ℝ)] [(440:ℝ)] note hb).1
      exact congrArg some h
  · simp only [npMedian]
    rw [show List.insertionSort (· ≤ ·) [(440:ℝ)] = [440] from rfl]
    norm_num

end Crescendo
